import Mathlib

/-!
Shallow embedding of the indicator-lifecycle engine of the
Threat-Intelligence-Aggregator repository, together with theorems settling
the frozen claims about it.

Strings are modelled as `List Char`; the ASCII-level behaviour of Rust's
`str::trim`, `str::to_lowercase`, `str::to_uppercase`, `str::find` and
`str::split_at` is captured at the character level (Lean's `Char.toLower`
and `Char.toUpper` mirror Rust's behaviour on the basic-latin range, which
is the range the IOC grammar uses; byte indices become character indices).
Timestamps are modelled as abstract `Nat` instants supplied by the caller
(`Utc::now()` becomes an explicit `now` argument), UUIDs as `Nat`, and the
PostgreSQL row store as a `List` of rows.
-/

namespace ThreatIntel

/-- Strings at the character level. -/
abbrev Str := List Char

/-! ### Character-level primitives (model of Rust `str` operations) -/

/-- Model of `str::trim` on the left: drop leading whitespace. -/
def trimLeft : Str → Str
  | [] => []
  | c :: cs => if c.isWhitespace then trimLeft cs else c :: cs

/-- Drop trailing whitespace. -/
def trimRight (l : Str) : Str := (trimLeft l.reverse).reverse

/-- Model of `str::trim`: drop leading and trailing whitespace. -/
def trim (l : Str) : Str := trimRight (trimLeft l)

/-- Model of `str::to_lowercase` (character-wise, basic-latin range). -/
def lowerL (l : Str) : Str := l.map Char.toLower

/-- Model of `str::to_uppercase` (character-wise, basic-latin range). -/
def upperL (l : Str) : Str := l.map Char.toUpper

/-- Model of `str::find(pattern)`: index of the first occurrence of `pat`
as a contiguous sublist, `none` when absent. -/
def findSub (pat : Str) : Str → Option Nat
  | [] => if pat.isPrefixOf ([] : Str) then some 0 else none
  | c :: cs =>
    if pat.isPrefixOf (c :: cs) then some 0
    else (findSub pat cs).map (· + 1)

/-! ### Character lemmas -/

theorem char_toNat_ofNat_valid (n : Nat) (h : n.isValidChar) :
    (Char.ofNat n).toNat = n := by
  simp only [Char.ofNat, dif_pos h]
  rfl

theorem char_isValid_of_le (n : Nat) (h : n < 0xd800) : n.isValidChar :=
  Or.inl h

theorem char_toNat_inj {a b : Char} (h : a.toNat = b.toNat) : a = b :=
  Char.ext (UInt32.toNat.inj h)

theorem toLower_eq_of_upper (c : Char) (h : 65 ≤ c.toNat ∧ c.toNat ≤ 90) :
    Char.toLower c = Char.ofNat (c.toNat + 32) := by
  show (if c.toNat ≥ 65 ∧ c.toNat ≤ 90 then Char.ofNat (c.toNat + 32) else c) = _
  rw [if_pos ⟨h.1, h.2⟩]

theorem toLower_eq_of_not_upper (c : Char) (h : ¬ (65 ≤ c.toNat ∧ c.toNat ≤ 90)) :
    Char.toLower c = c := by
  show (if c.toNat ≥ 65 ∧ c.toNat ≤ 90 then Char.ofNat (c.toNat + 32) else c) = _
  rw [if_neg (by exact fun hc => h ⟨hc.1, hc.2⟩)]

theorem toUpper_eq_of_lower (c : Char) (h : 97 ≤ c.toNat ∧ c.toNat ≤ 122) :
    Char.toUpper c = Char.ofNat (c.toNat - 32) := by
  show (if c.toNat ≥ 97 ∧ c.toNat ≤ 122 then Char.ofNat (c.toNat - 32) else c) = _
  rw [if_pos ⟨h.1, h.2⟩]

theorem toUpper_eq_of_not_lower (c : Char) (h : ¬ (97 ≤ c.toNat ∧ c.toNat ≤ 122)) :
    Char.toUpper c = c := by
  show (if c.toNat ≥ 97 ∧ c.toNat ≤ 122 then Char.ofNat (c.toNat - 32) else c) = _
  rw [if_neg (by exact fun hc => h ⟨hc.1, hc.2⟩)]

theorem toLower_toNat (c : Char) :
    (Char.toLower c).toNat = if 65 ≤ c.toNat ∧ c.toNat ≤ 90 then c.toNat + 32 else c.toNat := by
  by_cases h : 65 ≤ c.toNat ∧ c.toNat ≤ 90
  · rw [toLower_eq_of_upper c h, if_pos h,
      char_toNat_ofNat_valid _ (char_isValid_of_le _ (by omega))]
  · rw [toLower_eq_of_not_upper c h, if_neg h]

theorem toUpper_toNat (c : Char) :
    (Char.toUpper c).toNat = if 97 ≤ c.toNat ∧ c.toNat ≤ 122 then c.toNat - 32 else c.toNat := by
  by_cases h : 97 ≤ c.toNat ∧ c.toNat ≤ 122
  · rw [toUpper_eq_of_lower c h, if_pos h,
      char_toNat_ofNat_valid _ (char_isValid_of_le _ (by omega))]
  · rw [toUpper_eq_of_not_lower c h, if_neg h]

theorem toLower_toLower (c : Char) : Char.toLower (Char.toLower c) = Char.toLower c := by
  apply char_toNat_inj
  rw [toLower_toNat (Char.toLower c), toLower_toNat c]
  by_cases h : 65 ≤ c.toNat ∧ c.toNat ≤ 90
  · rw [if_pos h, if_neg (by omega)]
  · rw [if_neg h, if_neg h]

theorem toUpper_toUpper (c : Char) : Char.toUpper (Char.toUpper c) = Char.toUpper c := by
  apply char_toNat_inj
  rw [toUpper_toNat (Char.toUpper c), toUpper_toNat c]
  by_cases h : 97 ≤ c.toNat ∧ c.toNat ≤ 122
  · rw [if_pos h, if_neg (by omega)]
  · rw [if_neg h, if_neg h]

theorem isWhitespace_iff_toNat (c : Char) :
    c.isWhitespace = true ↔ (c.toNat = 32 ∨ c.toNat = 9 ∨ c.toNat = 13 ∨ c.toNat = 10) := by
  unfold Char.isWhitespace
  constructor
  · intro h
    simp only [Bool.or_eq_true, decide_eq_true_eq] at h
    rcases h with ((h | h) | h) | h <;> subst h <;> simp [Char.toNat]
  · intro h
    simp only [Bool.or_eq_true, decide_eq_true_eq]
    rcases h with h | h | h | h
    · exact Or.inl (Or.inl (Or.inl (char_toNat_inj (by simpa using h))))
    · exact Or.inl (Or.inl (Or.inr (char_toNat_inj (by simpa using h))))
    · exact Or.inl (Or.inr (char_toNat_inj (by simpa using h)))
    · exact Or.inr (char_toNat_inj (by simpa using h))

theorem isWhitespace_of_toNat_eq (c : Char)
    (h : (c.toNat = 32 ∨ c.toNat = 9 ∨ c.toNat = 13 ∨ c.toNat = 10) = False) :
    c.isWhitespace = false := by
  rw [Bool.eq_false_iff]
  intro hw
  exact h ▸ (isWhitespace_iff_toNat c).mp hw

theorem isWhitespace_toLower (c : Char) :
    (Char.toLower c).isWhitespace = c.isWhitespace := by
  by_cases h : 65 ≤ c.toNat ∧ c.toNat ≤ 90
  · have h1 : (Char.toLower c).isWhitespace = false := by
      rw [Bool.eq_false_iff]
      intro hw
      have hn := (isWhitespace_iff_toNat _).mp hw
      rw [toLower_toNat, if_pos h] at hn
      omega
    have h2 : c.isWhitespace = false := by
      rw [Bool.eq_false_iff]
      intro hw
      have hn := (isWhitespace_iff_toNat _).mp hw
      omega
    rw [h1, h2]
  · rw [toLower_eq_of_not_upper c h]

theorem isWhitespace_toUpper (c : Char) :
    (Char.toUpper c).isWhitespace = c.isWhitespace := by
  by_cases h : 97 ≤ c.toNat ∧ c.toNat ≤ 122
  · have h1 : (Char.toUpper c).isWhitespace = false := by
      rw [Bool.eq_false_iff]
      intro hw
      have hn := (isWhitespace_iff_toNat _).mp hw
      rw [toUpper_toNat, if_pos h] at hn
      omega
    have h2 : c.isWhitespace = false := by
      rw [Bool.eq_false_iff]
      intro hw
      have hn := (isWhitespace_iff_toNat _).mp hw
      omega
    rw [h1, h2]
  · rw [toUpper_eq_of_not_lower c h]

theorem toLower_eq_colon_iff (c : Char) : Char.toLower c = ':' ↔ c = ':' := by
  constructor
  · intro h
    have hn := congrArg Char.toNat h
    rw [toLower_toNat] at hn
    have hcolon : (':' : Char).toNat = 58 := by decide
    rw [hcolon] at hn
    apply char_toNat_inj
    rw [hcolon]
    split at hn <;> omega
  · intro h; subst h; decide

theorem toLower_eq_slash_iff (c : Char) : Char.toLower c = '/' ↔ c = '/' := by
  constructor
  · intro h
    have hn := congrArg Char.toNat h
    rw [toLower_toNat] at hn
    have hslash : ('/' : Char).toNat = 47 := by decide
    rw [hslash] at hn
    apply char_toNat_inj
    rw [hslash]
    split at hn <;> omega
  · intro h; subst h; decide

/-! ### Trim lemmas -/

theorem trimLeft_map (f : Char → Char) (hf : ∀ c, (f c).isWhitespace = c.isWhitespace) :
    ∀ l : Str, trimLeft (l.map f) = (trimLeft l).map f
  | [] => rfl
  | c :: cs => by
    simp only [List.map_cons, trimLeft, hf c]
    by_cases h : c.isWhitespace = true
    · rw [if_pos h, if_pos h, trimLeft_map f hf cs]
    · rw [if_neg h, if_neg h, List.map_cons]

theorem trimRight_map (f : Char → Char) (hf : ∀ c, (f c).isWhitespace = c.isWhitespace)
    (l : Str) : trimRight (l.map f) = (trimRight l).map f := by
  unfold trimRight
  rw [← List.map_reverse, trimLeft_map f hf, List.map_reverse]

theorem trim_map (f : Char → Char) (hf : ∀ c, (f c).isWhitespace = c.isWhitespace)
    (l : Str) : trim (l.map f) = (trim l).map f := by
  unfold trim
  rw [trimLeft_map f hf, trimRight_map f hf]

theorem trimLeft_idem (l : Str) : trimLeft (trimLeft l) = trimLeft l := by
  induction l with
  | nil => rfl
  | cons c cs ih =>
    by_cases h : c.isWhitespace = true
    · simp only [trimLeft, if_pos h, ih]
    · simp only [trimLeft, if_neg h]

theorem trimRight_idem (l : Str) : trimRight (trimRight l) = trimRight l := by
  unfold trimRight
  rw [List.reverse_reverse, trimLeft_idem]

theorem trimLeft_eq_drop (l : Str) : ∃ k, trimLeft l = l.drop k := by
  induction l with
  | nil => exact ⟨0, rfl⟩
  | cons c cs ih =>
    by_cases h : c.isWhitespace = true
    · obtain ⟨k, hk⟩ := ih
      exact ⟨k + 1, by simp only [trimLeft, if_pos h, hk, List.drop_succ_cons]⟩
    · exact ⟨0, by simp only [trimLeft, if_neg h, List.drop_zero]⟩

theorem head_trimLeft_not_ws (l : Str) (c : Char) (h : (trimLeft l).head? = some c) :
    c.isWhitespace = false := by
  induction l with
  | nil => simp [trimLeft] at h
  | cons d ds ih =>
    by_cases hd : d.isWhitespace = true
    · exact ih (by simpa only [trimLeft, if_pos hd] using h)
    · simp only [trimLeft, if_neg hd, List.head?_cons, Option.some.injEq] at h
      subst h
      exact Bool.eq_false_iff.mpr hd

theorem trimLeft_eq_self_of_head (l : Str)
    (h : ∀ c, l.head? = some c → c.isWhitespace = false) : trimLeft l = l := by
  cases l with
  | nil => rfl
  | cons c cs =>
    have := h c (by simp)
    simp only [trimLeft, this, Bool.false_eq_true, if_false]

theorem head?_take_of_some {α : Type} (n : Nat) (l : List α) (c : α)
    (h : (l.take n).head? = some c) : l.head? = some c := by
  cases n with
  | zero => simp [List.take] at h
  | succ m =>
    cases l with
    | nil => simp at h
    | cons d ds => simpa using h

theorem trimRight_eq_take (l : Str) : ∃ n, trimRight l = l.take n := by
  obtain ⟨k, hk⟩ := trimLeft_eq_drop l.reverse
  refine ⟨l.length - k, ?_⟩
  unfold trimRight
  rw [hk, ← List.rdrop_eq_reverse_drop_reverse, List.rdrop]

theorem head?_trimRight (l : Str) (c : Char) (h : (trimRight l).head? = some c) :
    l.head? = some c := by
  obtain ⟨n, hn⟩ := trimRight_eq_take l
  rw [hn] at h
  exact head?_take_of_some n l c h

theorem trim_trim (l : Str) : trim (trim l) = trim l := by
  have hfixl : trimLeft (trim l) = trim l := by
    apply trimLeft_eq_self_of_head
    intro c hc
    exact head_trimLeft_not_ws l c (head?_trimRight _ c hc)
  show trimRight (trimLeft (trim l)) = trim l
  rw [hfixl]
  show trimRight (trimRight (trimLeft l)) = trimRight (trimLeft l)
  exact trimRight_idem _

/-! ### IOC data model (src/models/mod.rs, src/models/ioc_utils.rs) -/

/-- Type `IocType` (src/models/mod.rs): kinds of indicators of compromise. -/
inductive IocType where
  | ip
  | domain
  | url
  | hash
  | email
  | cve
deriving DecidableEq, Repr

/-- Is `c` an ASCII hex digit (model of Rust `char::is_ascii_hexdigit`)? -/
def isHexDigitCh (c : Char) : Bool :=
  c.isDigit || (97 ≤ c.toNat && c.toNat ≤ 102) || (65 ≤ c.toNat && c.toNat ≤ 70)

/-- Split a character list on a separator character (model of Rust
`str::split(sep).collect::<Vec<_>>()`: `n` separators yield `n + 1` parts). -/
def splitOnChar (sep : Char) : Str → List Str
  | [] => [[]]
  | c :: cs =>
    if c = sep then [] :: splitOnChar sep cs
    else
      match splitOnChar sep cs with
      | [] => [[c]]
      | p :: ps => (c :: p) :: ps

/-- Decimal value of a digit list. -/
def natOfDigits (l : Str) : Nat := l.foldl (fun n c => n * 10 + (c.toNat - 48)) 0

/-- One IPv4 octet as accepted by Rust `Ipv4Addr::from_str`: decimal digits,
value at most 255, no leading zero. -/
def isIpv4Octet (p : Str) : Bool :=
  decide (p ≠ []) && p.all Char.isDigit &&
  (decide (p.length = 1) || decide (p.head? ≠ some '0')) &&
  decide (natOfDigits p ≤ 255)

/-- Model of `value.parse::<Ipv4Addr>().is_ok()`: four dot-separated octets. -/
def isParseIpv4 (s : Str) : Bool :=
  let parts := splitOnChar '.' s
  decide (parts.length = 4) && parts.all isIpv4Octet

/-- One IPv6 hexadecimal group: one to four hex digits. -/
def isHexGroup (g : Str) : Bool :=
  decide (g ≠ []) && decide (g.length ≤ 4) && g.all isHexDigitCh

/-- Model of `value.parse::<Ipv6Addr>().is_ok()`: colon-separated hex groups,
eight in the full form, fewer with a single `::` compression, optionally with a
trailing embedded IPv4 address standing for the last two groups. This follows
the grammar of Rust std's parser; no claim in this development depends on its
internals, only on its boolean result at untouched branch positions. -/
def isParseIpv6 (s : Str) : Bool :=
  match findSub [':', ':'] s with
  | none =>
    let parts := splitOnChar ':' s
    (decide (parts.length = 8) && parts.all isHexGroup) ||
    (decide (parts.length = 7) && (parts.take 6).all isHexGroup &&
      isParseIpv4 (parts.getLastD []))
  | some i =>
    let left := s.take i
    let right := s.drop (i + 2)
    (findSub [':', ':'] right).isNone &&
    (let lparts := if left = [] then [] else splitOnChar ':' left
     let rparts := if right = [] then [] else splitOnChar ':' right
     lparts.all isHexGroup &&
     ((rparts.all isHexGroup && decide (lparts.length + rparts.length ≤ 7)) ||
      (decide (rparts ≠ []) && rparts.dropLast.all isHexGroup &&
       isParseIpv4 (rparts.getLastD []) &&
       decide (lparts.length + rparts.length + 1 ≤ 7))))

/-- Model of `detect_ioc_type` (src/models/ioc_utils.rs lines 7–67): the
detection rules are tried in order and the first match wins. -/
def detect_ioc_type (value : Str) : Option IocType :=
  let trimmed := trim value
  if trimmed = [] then none
  else if ("CVE-".toList).isPrefixOf (upperL trimmed) then some .cve
  else if (decide (trimmed.length = 32) || decide (trimmed.length = 40) ||
           decide (trimmed.length = 64)) && trimmed.all isHexDigitCh then some .hash
  else if ("http://".toList).isPrefixOf trimmed ||
          ("https://".toList).isPrefixOf trimmed then some .url
  else if trimmed.contains '@' && trimmed.contains '.' then some .email
  else if isParseIpv4 trimmed then some .ip
  else if isParseIpv6 trimmed then some .ip
  else if trimmed.contains '/' &&
          (let parts := splitOnChar '/' trimmed
           decide (parts.length = 2) &&
           (isParseIpv4 (parts.headD []) || isParseIpv6 (parts.headD []))) then some .ip
  else if trimmed.contains '.' && !(trimmed.contains ' ') && !(trimmed.contains '/') &&
          !(trimmed.contains '@') &&
          trimmed.all (fun c => c.isAlphanum || c == '.' || c == '-') then some .domain
  else none

/-- Model of `normalize_ioc` (src/models/ioc_utils.rs lines 70–93): trim, then
canonicalize case; for URLs, lowercase the scheme (up to and including the
literal `://`) and the host (up to the first `/` after it), keeping the rest. -/
def normalize_ioc (value : Str) (t : IocType) : Str :=
  let trimmed := trim value
  match t with
  | .domain => lowerL trimmed
  | .url =>
    match findSub [':', '/', '/'] trimmed with
    | some idx =>
      let scheme := trimmed.take (idx + 3)
      let rest := trimmed.drop (idx + 3)
      match findSub ['/'] rest with
      | some pidx => lowerL scheme ++ lowerL (rest.take pidx) ++ rest.drop pidx
      | none => lowerL trimmed
    | none => lowerL trimmed
  | .email => lowerL trimmed
  | .ip => lowerL trimmed
  | .hash => lowerL trimmed
  | .cve => upperL trimmed

/-! ### Shape of a normalized URL: a lowercased region followed by a verbatim
region.  `lowerUpTo k l` lowercases the first `k` characters of `l` and keeps
the rest; every branch of the URL normalization produces such a shape. -/

/-- Lowercase the first `k` characters, keep the rest verbatim. -/
def lowerUpTo (k : Nat) (l : Str) : Str := lowerL (l.take k) ++ l.drop k

theorem lowerUpTo_zero (l : Str) : lowerUpTo 0 l = l := by
  simp [lowerUpTo, lowerL]

theorem lowerUpTo_nil (k : Nat) : lowerUpTo k [] = [] := by
  simp [lowerUpTo, lowerL]

theorem lowerUpTo_cons (k : Nat) (c : Char) (cs : Str) :
    lowerUpTo (k + 1) (c :: cs) = Char.toLower c :: lowerUpTo k cs := by
  simp [lowerUpTo, lowerL]

theorem lowerUpTo_length_le (k : Nat) (l : Str) (h : l.length ≤ k) :
    lowerUpTo k l = lowerL l := by
  unfold lowerUpTo
  rw [List.take_of_length_le h, List.drop_of_length_le h, List.append_nil]

theorem length_lowerUpTo (k : Nat) (l : Str) : (lowerUpTo k l).length = l.length := by
  simp [lowerUpTo, lowerL]
  omega

theorem lowerL_lowerL (l : Str) : lowerL (lowerL l) = lowerL l := by
  unfold lowerL
  rw [List.map_map]
  exact List.map_congr_left (fun c _ => toLower_toLower c)

theorem upperL_upperL (l : Str) : upperL (upperL l) = upperL l := by
  unfold upperL
  rw [List.map_map]
  exact List.map_congr_left (fun c _ => toUpper_toUpper c)

theorem lowerL_lowerUpTo (k : Nat) (l : Str) : lowerL (lowerUpTo k l) = lowerL l := by
  unfold lowerUpTo
  show lowerL (lowerL (l.take k) ++ l.drop k) = _
  unfold lowerL
  rw [List.map_append, List.map_map]
  have : (Char.toLower ∘ Char.toLower) = Char.toLower := funext toLower_toLower
  rw [this, ← List.map_append, List.take_append_drop]

/-- A pattern made of characters that `Char.toLower` neither changes nor
produces is found at the same positions in `lowerUpTo k l` as in `l`. -/
def LowerRigid (pat : Str) : Prop := ∀ c ∈ pat, ∀ d : Char, Char.toLower d = c ↔ d = c

theorem lowerRigid_sep : LowerRigid [':', '/', '/'] := by
  intro c hc d
  simp only [List.mem_cons, List.not_mem_nil, or_false] at hc
  rcases hc with h | h | h <;> subst h
  · exact toLower_eq_colon_iff d
  · exact toLower_eq_slash_iff d
  · exact toLower_eq_slash_iff d

theorem lowerRigid_slash : LowerRigid ['/'] := by
  intro c hc d
  simp only [List.mem_cons, List.not_mem_nil, or_false] at hc
  subst hc
  exact toLower_eq_slash_iff d

theorem isPrefixOf_lowerUpTo (pat : Str) (hpat : LowerRigid pat) :
    ∀ (l : Str) (k : Nat), pat.isPrefixOf (lowerUpTo k l) = pat.isPrefixOf l
  | [], k => by rw [lowerUpTo_nil]
  | c :: cs, 0 => by rw [lowerUpTo_zero]
  | c :: cs, k + 1 => by
    rw [lowerUpTo_cons]
    cases pat with
    | nil => rfl
    | cons p ps =>
      show (p == Char.toLower c && ps.isPrefixOf (lowerUpTo k cs)) =
        (p == c && ps.isPrefixOf cs)
      have hps : LowerRigid ps := fun x hx => hpat x (List.mem_cons_of_mem p hx)
      rw [isPrefixOf_lowerUpTo ps hps cs k]
      have hbeq : (p == Char.toLower c) = (p == c) := by
        by_cases h : p = c
        · rw [← h, (hpat p (List.mem_cons_self p ps) p).mpr rfl]
        · have h2 : p ≠ Char.toLower c := fun he =>
            h ((hpat p (List.mem_cons_self p ps) c).mp he.symm).symm
          rw [beq_eq_false_iff_ne.mpr h2, beq_eq_false_iff_ne.mpr h]
      rw [hbeq]

theorem findSub_lowerUpTo (pat : Str) (hpat : LowerRigid pat) :
    ∀ (l : Str) (k : Nat), findSub pat (lowerUpTo k l) = findSub pat l
  | [], k => by rw [lowerUpTo_nil]
  | c :: cs, 0 => by rw [lowerUpTo_zero]
  | c :: cs, k + 1 => by
    rw [lowerUpTo_cons]
    show (if pat.isPrefixOf (Char.toLower c :: lowerUpTo k cs) then some 0
          else (findSub pat (lowerUpTo k cs)).map (· + 1)) = _
    rw [← lowerUpTo_cons, isPrefixOf_lowerUpTo pat hpat,
      findSub_lowerUpTo pat hpat cs k]
    rfl

theorem take_add_split {α : Type} (a b : Nat) (l : List α) :
    l.take (a + b) = l.take a ++ (l.drop a).take b := by
  have h1 : (l.take (a + b)).take a = l.take a := by
    rw [List.take_take, Nat.min_def, if_pos (Nat.le_add_right a b)]
  have h2 : (l.take (a + b)).drop a = (l.drop a).take b := by
    rw [List.drop_take, Nat.add_sub_cancel_left]
  calc l.take (a + b) = (l.take (a + b)).take a ++ (l.take (a + b)).drop a :=
        (List.take_append_drop a _).symm
    _ = l.take a ++ (l.drop a).take b := by rw [h1, h2]

theorem drop_lowerUpTo (k j : Nat) (l : Str) :
    (lowerUpTo k l).drop j = lowerUpTo (k - j) (l.drop j) := by
  by_cases hk : k ≤ l.length
  · unfold lowerUpTo lowerL
    have hlen : (List.map Char.toLower (l.take k)).length = k := by
      rw [List.length_map]
      exact List.length_take_of_le hk
    rw [List.drop_append_eq_append_drop, hlen, ← List.map_drop, List.drop_take,
      List.map_take, List.map_drop, List.drop_drop, List.drop_drop]
    have : k + (j - k) = j + (k - j) := by omega
    rw [this]
  · push_neg at hk
    rw [lowerUpTo_length_le k l (by omega),
      lowerUpTo_length_le (k - j) (l.drop j) (by simp; omega)]
    unfold lowerL
    rw [List.map_drop]

theorem take_self_lowerUpTo (k : Nat) (l : Str) (hk : k ≤ l.length) :
    (lowerUpTo k l).take k = lowerL (l.take k) := by
  unfold lowerUpTo
  apply List.take_left'
  rw [lowerL, List.length_map]
  exact List.length_take_of_le hk

theorem getLast?_lowerUpTo (k : Nat) (l : Str) :
    (lowerUpTo k l).getLast? = l.getLast? ∨
    (lowerUpTo k l).getLast? = l.getLast?.map Char.toLower := by
  by_cases hk : l.length ≤ k
  · right
    rw [lowerUpTo_length_le k l hk, lowerL, List.getLast?_map]
  · left
    push_neg at hk
    have hne : l.drop k ≠ [] := by
      intro h
      have := congrArg List.length h
      simp at this
      omega
    obtain ⟨a, ha⟩ : ∃ a, (l.drop k).getLast? = some a :=
      Option.isSome_iff_exists.mp (List.getLast?_isSome.mpr hne)
    unfold lowerUpTo
    rw [List.getLast?_append, ha]
    have : l.getLast? = some a := by
      rw [← List.take_append_drop k l, List.getLast?_append, ha]
      rfl
    rw [this]
    rfl

/-! ### Trim-fixedness is preserved by partial lowercasing -/

theorem head_not_ws_of_trim_fix (l : Str) (h : trim l = l) (c : Char)
    (hc : l.head? = some c) : c.isWhitespace = false := by
  rw [← h] at hc
  exact head_trimLeft_not_ws l c (head?_trimRight (trimLeft l) c hc)

theorem getLast_trimRight_not_ws (m : Str) (c : Char)
    (h : (trimRight m).getLast? = some c) : c.isWhitespace = false := by
  unfold trimRight at h
  rw [List.getLast?_reverse] at h
  exact head_trimLeft_not_ws m.reverse c h

theorem getLast_not_ws_of_trim_fix (l : Str) (h : trim l = l) (c : Char)
    (hc : l.getLast? = some c) : c.isWhitespace = false := by
  rw [← h] at hc
  exact getLast_trimRight_not_ws (trimLeft l) c hc

theorem trimRight_eq_self_of_getLast (l : Str)
    (h : ∀ c, l.getLast? = some c → c.isWhitespace = false) : trimRight l = l := by
  unfold trimRight
  rw [trimLeft_eq_self_of_head l.reverse (fun c hc => h c (by rwa [List.head?_reverse] at hc)),
    List.reverse_reverse]

theorem trim_eq_self_of (l : Str)
    (hh : ∀ c, l.head? = some c → c.isWhitespace = false)
    (hl : ∀ c, l.getLast? = some c → c.isWhitespace = false) : trim l = l := by
  unfold trim
  rw [trimLeft_eq_self_of_head l hh]
  exact trimRight_eq_self_of_getLast l hl

theorem head?_lowerUpTo (k : Nat) (l : Str) :
    (lowerUpTo k l).head? = l.head? ∨
    (lowerUpTo k l).head? = l.head?.map Char.toLower := by
  cases l with
  | nil => left; rw [lowerUpTo_nil]
  | cons c cs =>
    cases k with
    | zero => left; rw [lowerUpTo_zero]
    | succ k => right; rw [lowerUpTo_cons]; rfl

theorem trim_fix_lowerUpTo (k : Nat) (l : Str) (h : trim l = l) :
    trim (lowerUpTo k l) = lowerUpTo k l := by
  apply trim_eq_self_of
  · intro c hc
    rcases head?_lowerUpTo k l with he | he
    · exact head_not_ws_of_trim_fix l h c (he ▸ hc)
    · rw [he] at hc
      obtain ⟨d, hd, hdc⟩ := Option.map_eq_some'.mp hc
      rw [← hdc, isWhitespace_toLower]
      exact head_not_ws_of_trim_fix l h d hd
  · intro c hc
    rcases getLast?_lowerUpTo k l with he | he
    · exact getLast_not_ws_of_trim_fix l h c (he ▸ hc)
    · rw [he] at hc
      obtain ⟨d, hd, hdc⟩ := Option.map_eq_some'.mp hc
      rw [← hdc, isWhitespace_toLower]
      exact getLast_not_ws_of_trim_fix l h d hd

/-! ### Locating pattern occurrences -/

theorem findSub_some_prefix (pat : Str) : ∀ (l : Str) (i : Nat),
    findSub pat l = some i → pat.isPrefixOf (l.drop i) = true
  | [], i, h => by
    unfold findSub at h
    split at h
    · next hp =>
      injection h with h'
      subst h'
      simpa using hp
    · cases h
  | c :: cs, i, h => by
    unfold findSub at h
    split at h
    · next hp =>
      injection h with h'
      subst h'
      simpa using hp
    · next hp =>
      obtain ⟨j, hj, hji⟩ := Option.map_eq_some'.mp h
      subst hji
      rw [List.drop_succ_cons]
      exact findSub_some_prefix pat cs j hj

theorem isPrefixOf_length_le {α : Type} [BEq α] :
    ∀ p l : List α, p.isPrefixOf l = true → p.length ≤ l.length
  | [], l, _ => Nat.zero_le _
  | _ :: _, [], h => by cases h
  | a :: as, b :: bs, h => by
    have h1 : (a == b && as.isPrefixOf bs) = true := h
    exact Nat.succ_le_succ (isPrefixOf_length_le as bs (Bool.and_eq_true_iff.mp h1).2)

theorem findSub_sep_bound (m : Str) (i : Nat)
    (h : findSub [':', '/', '/'] m = some i) : i + 3 ≤ m.length := by
  have hp := findSub_some_prefix _ m i h
  have := isPrefixOf_length_le _ _ hp
  simp at this
  omega

theorem findSub_slash_bound (m : Str) (p : Nat)
    (h : findSub ['/'] m = some p) : p < m.length := by
  have hp := findSub_some_prefix _ m p h
  have := isPrefixOf_length_le _ _ hp
  simp at this
  omega

/-! ### The three branch shapes of URL normalization -/

theorem normalize_url_def (v : Str) : normalize_ioc v .url =
    (match findSub [':', '/', '/'] (trim v) with
     | some idx =>
       match findSub ['/'] ((trim v).drop (idx + 3)) with
       | some pidx =>
         lowerL ((trim v).take (idx + 3)) ++
           lowerL (((trim v).drop (idx + 3)).take pidx) ++
             ((trim v).drop (idx + 3)).drop pidx
       | none => lowerL (trim v)
     | none => lowerL (trim v)) := rfl

theorem normalize_url_sep_none (v : Str)
    (h : findSub [':', '/', '/'] (trim v) = none) :
    normalize_ioc v .url = lowerL (trim v) := by
  rw [normalize_url_def]
  simp only [h]

theorem normalize_url_slash_none (v : Str) (i : Nat)
    (h1 : findSub [':', '/', '/'] (trim v) = some i)
    (h2 : findSub ['/'] ((trim v).drop (i + 3)) = none) :
    normalize_ioc v .url = lowerL (trim v) := by
  rw [normalize_url_def]
  simp only [h1, h2]

theorem normalize_url_slash_some (v : Str) (i p : Nat)
    (h1 : findSub [':', '/', '/'] (trim v) = some i)
    (h2 : findSub ['/'] ((trim v).drop (i + 3)) = some p) :
    normalize_ioc v .url = lowerUpTo (i + 3 + p) (trim v) := by
  rw [normalize_url_def]
  simp only [h1, h2]
  show _ = lowerL ((trim v).take (i + 3 + p)) ++ (trim v).drop (i + 3 + p)
  rw [take_add_split (i + 3) p (trim v)]
  unfold lowerL
  rw [List.map_append, ← List.drop_drop p (i + 3) (trim v), List.append_assoc]

theorem lowerUpTo_lowerUpTo (k : Nat) (l : Str) (hk : k ≤ l.length) :
    lowerUpTo k (lowerUpTo k l) = lowerUpTo k l := by
  show lowerL ((lowerUpTo k l).take k) ++ (lowerUpTo k l).drop k = lowerUpTo k l
  rw [take_self_lowerUpTo k l hk, lowerL_lowerL, drop_lowerUpTo, Nat.sub_self,
    lowerUpTo_zero]
  rfl

theorem normalize_url_idem (v : Str) :
    normalize_ioc (normalize_ioc v .url) .url = normalize_ioc v .url := by
  have htm : trim (trim v) = trim v := trim_trim v
  cases hsep : findSub [':', '/', '/'] (trim v) with
  | none =>
    have h1 : normalize_ioc v .url = lowerL (trim v) :=
      normalize_url_sep_none v hsep
    have hw : lowerL (trim v) = lowerUpTo (trim v).length (trim v) :=
      (lowerUpTo_length_le _ _ (Nat.le_refl _)).symm
    have htw : trim (lowerL (trim v)) = lowerL (trim v) := by
      rw [hw]; exact trim_fix_lowerUpTo _ _ htm
    have hsep2 : findSub [':', '/', '/'] (trim (lowerL (trim v))) = none := by
      rw [htw, hw, findSub_lowerUpTo _ lowerRigid_sep, hsep]
    rw [h1, normalize_url_sep_none _ hsep2, htw, lowerL_lowerL]
  | some i =>
    cases hsl : findSub ['/'] ((trim v).drop (i + 3)) with
    | none =>
      have h1 : normalize_ioc v .url = lowerL (trim v) :=
        normalize_url_slash_none v i hsep hsl
      have hw : lowerL (trim v) = lowerUpTo (trim v).length (trim v) :=
        (lowerUpTo_length_le _ _ (Nat.le_refl _)).symm
      have htw : trim (lowerL (trim v)) = lowerL (trim v) := by
        rw [hw]; exact trim_fix_lowerUpTo _ _ htm
      have hsep2 : findSub [':', '/', '/'] (trim (lowerL (trim v))) = some i := by
        rw [htw, hw, findSub_lowerUpTo _ lowerRigid_sep, hsep]
      have hsl2 : findSub ['/'] ((trim (lowerL (trim v))).drop (i + 3)) = none := by
        rw [htw, hw, drop_lowerUpTo, findSub_lowerUpTo _ lowerRigid_slash, hsl]
      rw [h1, normalize_url_slash_none _ i hsep2 hsl2, htw, lowerL_lowerL]
    | some p =>
      have hk : i + 3 + p < (trim v).length := by
        have hb1 := findSub_sep_bound _ i hsep
        have hb2 := findSub_slash_bound _ p hsl
        simp only [List.length_drop] at hb2
        omega
      have h1 : normalize_ioc v .url = lowerUpTo (i + 3 + p) (trim v) :=
        normalize_url_slash_some v i p hsep hsl
      have htw : trim (lowerUpTo (i + 3 + p) (trim v)) = lowerUpTo (i + 3 + p) (trim v) :=
        trim_fix_lowerUpTo _ _ htm
      have hsep2 : findSub [':', '/', '/'] (trim (lowerUpTo (i + 3 + p) (trim v))) = some i := by
        rw [htw, findSub_lowerUpTo _ lowerRigid_sep, hsep]
      have hsl2 : findSub ['/'] ((trim (lowerUpTo (i + 3 + p) (trim v))).drop (i + 3)) = some p := by
        have hidx : i + 3 + p - (i + 3) = p := by omega
        rw [htw, drop_lowerUpTo, hidx, findSub_lowerUpTo _ lowerRigid_slash, hsl]
      rw [h1, normalize_url_slash_some _ i p hsep2 hsl2, htw,
        lowerUpTo_lowerUpTo _ _ (Nat.le_of_lt hk)]

/-- Claim C8: for every string `v` and every IOC type `t`, normalization is
idempotent: `normalize_ioc (normalize_ioc v t) t = normalize_ioc v t`. -/
theorem C8_normalize_ioc_idempotent (v : Str) (t : IocType) :
    normalize_ioc (normalize_ioc v t) t = normalize_ioc v t := by
  have hlow : ∀ m : Str, lowerL (trim (lowerL (trim m))) = lowerL (trim m) := by
    intro m
    show lowerL (trim ((trim m).map Char.toLower)) = _
    rw [trim_map Char.toLower isWhitespace_toLower, trim_trim]
    exact lowerL_lowerL (trim m)
  have hup : ∀ m : Str, upperL (trim (upperL (trim m))) = upperL (trim m) := by
    intro m
    show upperL (trim ((trim m).map Char.toUpper)) = _
    rw [trim_map Char.toUpper isWhitespace_toUpper, trim_trim]
    exact upperL_upperL (trim m)
  cases t with
  | url => exact normalize_url_idem v
  | domain => exact hlow v
  | email => exact hlow v
  | ip => exact hlow v
  | hash => exact hlow v
  | cve => exact hup v

/-- Claim C7 counterexample: the value `"http://a?Q"` is classified as `Url`, but since no
`/` occurs after the `://` separator, `normalize_ioc` lowercases the whole
trimmed value, including the query `?Q` — the text after the authority is not
preserved verbatim as the claim states. -/
theorem C7_counterexample :
    detect_ioc_type ("http://a?Q".toList) = some IocType.url ∧
    normalize_ioc ("http://a?Q".toList) IocType.url = "http://a?q".toList ∧
    "http://a?q".toList ≠ "http://a?Q".toList := by
  refine ⟨by decide, by decide, by decide⟩

/-- Claim C7 amended: for an input classified as `Url`, when a `/` occurs after
the literal `://` (at offset `p` of the remainder), normalization lowercases
exactly the scheme-and-authority region — the first `i + 3 + p` characters of
the trimmed input — and preserves everything from that `/` on verbatim; when no
such `/` exists, the entire trimmed value is lowercased (including any query),
so casing after the authority is not preserved in that case. -/
theorem C7_amended_url_normalization (v : Str)
    (_hdet : detect_ioc_type v = some IocType.url) :
    (∀ i p, findSub [':', '/', '/'] (trim v) = some i →
      findSub ['/'] ((trim v).drop (i + 3)) = some p →
      normalize_ioc v .url =
        lowerL ((trim v).take (i + 3 + p)) ++ (trim v).drop (i + 3 + p))
    ∧ (∀ i, findSub [':', '/', '/'] (trim v) = some i →
      findSub ['/'] ((trim v).drop (i + 3)) = none →
      normalize_ioc v .url = lowerL (trim v)) := by
  constructor
  · intro i p h1 h2
    rw [normalize_url_slash_some v i p h1 h2]
    rfl
  · intro i h1 h2
    exact normalize_url_slash_none v i h1 h2

/-- Witness for the amended C7 theorem at `"http://ABC/Path?Q"`: the separator
sits at index 4, the first `/` of the remainder at offset 3, and the result
lowercases exactly the first 10 characters. -/
theorem C7_amended_witness :
    detect_ioc_type ("http://ABC/Path?Q".toList) = some IocType.url ∧
    normalize_ioc ("http://ABC/Path?Q".toList) IocType.url =
      lowerL ((trim ("http://ABC/Path?Q".toList)).take (4 + 3 + 3)) ++
        (trim ("http://ABC/Path?Q".toList)).drop (4 + 3 + 3) :=
  ⟨by decide,
   (C7_amended_url_normalization _ (by decide)).1 4 3 (by decide) (by decide)⟩

/-! ### Severity (src/models/mod.rs) -/

/-- Type `Severity` (src/models/mod.rs lines 39–45): threat severity levels.
Modelled from the spec: the database enum created by the migrations (not under
src/) orders the labels in declaration order `Unknown < Low < Medium < High <
Critical` (spec §3), matching the Rust declaration order reproduced here. -/
inductive Severity where
  | unknown
  | low
  | medium
  | high
  | critical
deriving DecidableEq, Repr

/-- Ordinal position of a severity in the declared order. -/
def Severity.ord : Severity → Nat
  | .unknown => 0
  | .low => 1
  | .medium => 2
  | .high => 3
  | .critical => 4

/-- Model of `impl From<i32> for Severity` (src/models/mod.rs lines 47–57):
score buckets `0..=20 → Low`, `21..=50 → Medium`, `51..=80 → High`,
`81..=100 → Critical`, anything else `Unknown`. -/
def severityFromScore (score : Int) : Severity :=
  if 0 ≤ score ∧ score ≤ 20 then .low
  else if 21 ≤ score ∧ score ≤ 50 then .medium
  else if 51 ≤ score ∧ score ≤ 80 then .high
  else if 81 ≤ score ∧ score ≤ 100 then .critical
  else .unknown

/-- Claim C6 counterexample: the mapping is not monotone non-decreasing on all
integer scores: `100 ≤ 101` but `from(101) = Unknown` sits strictly below
`from(100) = Critical` in the order `Unknown < Low < Medium < High <
Critical`. -/
theorem C6_counterexample :
    (100 : Int) ≤ 101 ∧
    severityFromScore 100 = Severity.critical ∧
    severityFromScore 101 = Severity.unknown ∧
    (severityFromScore 101).ord < (severityFromScore 100).ord := by
  refine ⟨by decide, by decide, by decide, by decide⟩

/-- Claim C6 amended: the score-to-severity mapping is total (it is a function),
monotone non-decreasing on scores within `[0, 100]`, its buckets tile `[0,100]`
exactly as `0–20 → Low`, `21–50 → Medium`, `51–80 → High`, `81–100 → Critical`,
and every score outside `[0, 100]` (including 101) maps to `Unknown`; it is not
monotone across the boundary from 100 to 101. -/
theorem C6_amended_severity_from_score :
    (∀ a b : Int, 0 ≤ a → a ≤ b → b ≤ 100 →
      (severityFromScore a).ord ≤ (severityFromScore b).ord)
    ∧ (∀ s : Int,
        ((0 ≤ s ∧ s ≤ 20) → severityFromScore s = Severity.low)
        ∧ ((21 ≤ s ∧ s ≤ 50) → severityFromScore s = Severity.medium)
        ∧ ((51 ≤ s ∧ s ≤ 80) → severityFromScore s = Severity.high)
        ∧ ((81 ≤ s ∧ s ≤ 100) → severityFromScore s = Severity.critical)
        ∧ ((s < 0 ∨ 100 < s) → severityFromScore s = Severity.unknown)) := by
  constructor
  · intro a b ha hab hb
    unfold severityFromScore
    split_ifs <;> first | decide | omega
  · intro s
    refine ⟨?_, ?_, ?_, ?_, ?_⟩ <;>
      · intro h
        unfold severityFromScore
        split_ifs <;> first | rfl | omega

/-- Witness for the amended C6 theorem at concrete scores: monotone from 0 to
100 inside the range, and 101 maps to `Unknown`. -/
theorem C6_amended_witness :
    (0 : Int) ≤ 0 ∧ (0 : Int) ≤ 100 ∧ (100 : Int) ≤ 100 ∧
    (severityFromScore 0).ord ≤ (severityFromScore 100).ord ∧
    severityFromScore 101 = Severity.unknown :=
  ⟨by decide, by decide, by decide,
   C6_amended_severity_from_score.1 0 100 (by decide) (by decide) (by decide),
   (C6_amended_severity_from_score.2 101).2.2.2.2 (Or.inr (by decide))⟩

/-! ### Storage layer (src/storage/mod.rs) -/

/-- Type `Tlp` (src/models/mod.rs lines 63–68): traffic light protocol labels. -/
inductive Tlp where
  | white
  | green
  | amber
  | red
deriving DecidableEq, Repr

/-- An `indicators` row (src/models/mod.rs lines 87–102).  Timestamps are
abstract `Int` instants; UUIDs are `Nat`. -/
structure Indicator where
  id : Nat
  ioc_type : IocType
  value : Str
  severity : Severity
  confidence : Int
  threat_score : Int
  tlp : Tlp
  first_seen : Int
  last_seen : Int
  expiration : Option Int
  tags : List Str
  source_ids : List Nat
  created_at : Int
  updated_at : Int
deriving DecidableEq, Repr

/-- Request type `CreateIndicatorRequest` (src/models/mod.rs lines 169–179). -/
structure CreateIndicatorRequest where
  value : Str
  ioc_type : Option IocType
  severity : Option Severity
  confidence : Option Int
  tlp : Option Tlp
  tags : Option (List Str)
  source : Option Str
  expiration_days : Option Int
deriving DecidableEq, Repr

/-- Key resolution inside `upsert_indicator` (src/storage/mod.rs lines 52–55):
explicit `ioc_type` if present, else detection, then normalization of the
value. -/
def resolveKey (req : CreateIndicatorRequest) : Option (IocType × Str) :=
  match req.ioc_type.orElse (fun _ => detect_ioc_type req.value) with
  | none => none
  | some t => some (t, normalize_ioc req.value t)

/-- The error text produced when no IOC type can be resolved. -/
def detectErr (value : Str) : Str :=
  "Could not detect IOC type for: ".toList ++ value

/-- Model of `source_id.map(|id| vec![id]).unwrap_or_default()` (src/storage/mod.rs
line 86). -/
def sourceVec (source_id : Option Nat) : List Nat :=
  (source_id.map (fun i => [i])).getD []

/-- The `CASE WHEN EXCLUDED.severity > indicators.severity THEN
EXCLUDED.severity ELSE indicators.severity END` merge (src/storage/mod.rs
line 67); SQL compares the enum labels in declaration order. -/
def sevMax (existing incoming : Severity) : Severity :=
  if existing.ord < incoming.ord then incoming else existing

/-- The freshly inserted row: the `VALUES` list of the upsert
(src/storage/mod.rs lines 61–65 and 76–86), with `$8 = now` bound for
`first_seen`, `last_seen`, `created_at` and `updated_at`, and the initial
`threat_score` equal to the bound confidence. -/
def insertRow (t : IocType) (nv : Str) (req : CreateIndicatorRequest)
    (source_id : Option Nat) (now : Int) (newId : Nat) : Indicator where
  id := newId
  ioc_type := t
  value := nv
  severity := req.severity.getD .unknown
  confidence := req.confidence.getD 50
  threat_score := req.confidence.getD 50
  tlp := req.tlp.getD .amber
  first_seen := now
  last_seen := now
  expiration := req.expiration_days.map (fun d => now + d * 86400)
  tags := req.tags.getD []
  source_ids := sourceVec source_id
  created_at := now
  updated_at := now

/-- The `ON CONFLICT (ioc_type, value) DO UPDATE SET` clause
(src/storage/mod.rs lines 66–72): severity max by enum order, confidence
`GREATEST`, `last_seen` and `updated_at` to now, tags and source_ids
`array_cat`; every other column keeps the existing row's value. -/
def mergeRow (existing : Indicator) (req : CreateIndicatorRequest)
    (source_id : Option Nat) (now : Int) : Indicator :=
  { existing with
    severity := sevMax existing.severity (req.severity.getD .unknown)
    confidence := max existing.confidence (req.confidence.getD 50)
    last_seen := now
    tags := existing.tags ++ req.tags.getD []
    source_ids := existing.source_ids ++ sourceVec source_id
    updated_at := now }

/-- The row of the `indicators` table with the given natural key, if any. -/
def findRow : List Indicator → IocType → Str → Option Indicator
  | [], _, _ => none
  | i :: rest, t, v =>
    if i.ioc_type = t ∧ i.value = v then some i else findRow rest t v

/-- Replace the row(s) with the given natural key. -/
def replaceRow (db : List Indicator) (t : IocType) (v : Str)
    (newRow : Indicator) : List Indicator :=
  db.map (fun i => if i.ioc_type = t ∧ i.value = v then newRow else i)

/-- Model of `upsert_indicator` (src/storage/mod.rs lines 51–92) acting on the
`indicators` table: resolve the IOC type (error if impossible), normalize the
value, then atomically insert-or-merge on the `(ioc_type, value)` conflict
target; returns the new table and the `RETURNING *` row. -/
def upsert_indicator (db : List Indicator) (req : CreateIndicatorRequest)
    (source_id : Option Nat) (now : Int) (newId : Nat) :
    Except Str (List Indicator × Indicator) :=
  match resolveKey req with
  | none => .error (detectErr req.value)
  | some (t, nv) =>
    match findRow db t nv with
    | none =>
      let row := insertRow t nv req source_id now newId
      .ok (db ++ [row], row)
    | some existing =>
      let merged := mergeRow existing req source_id now
      .ok (replaceRow db t nv merged, merged)

/-- One call to `upsert_indicator` with its request, optional source id, and
the instant and fresh id the call draws. -/
structure UpsertCall where
  req : CreateIndicatorRequest
  source_id : Option Nat
  now : Int
  newId : Nat
deriving DecidableEq, Repr

/-- The rows observed (`RETURNING *`) after each call of a sequence of
upserts, starting from table `db`; a call whose key resolution fails leaves
the table unchanged and returns no row. -/
def runUpserts (db : List Indicator) : List UpsertCall → List Indicator
  | [] => []
  | c :: cs =>
    match upsert_indicator db c.req c.source_id c.now c.newId with
    | .ok (db', row) => row :: runUpserts db' cs
    | .error _ => runUpserts db cs

/-! ### Merge invariants (C1, C2) -/

/-- The per-merge monotonicity relation between consecutive observed rows:
severity does not go down (in the declared order) and confidence does not go
down. -/
def MergeLe (a b : Indicator) : Prop :=
  a.severity.ord ≤ b.severity.ord ∧ a.confidence ≤ b.confidence

theorem sevMax_le (a b : Severity) : a.ord ≤ (sevMax a b).ord := by
  unfold sevMax
  split
  · omega
  · exact Nat.le_refl _

theorem mergeLe_mergeRow (i : Indicator) (req : CreateIndicatorRequest)
    (sid : Option Nat) (now : Int) : MergeLe i (mergeRow i req sid now) :=
  ⟨sevMax_le _ _, le_max_left _ _⟩

theorem findRow_key (t : IocType) (v : Str) :
    ∀ (db : List Indicator) (i : Indicator), findRow db t v = some i →
      i.ioc_type = t ∧ i.value = v
  | [], i, h => by cases h
  | x :: xs, i, h => by
    by_cases hx : x.ioc_type = t ∧ x.value = v
    · rw [findRow, if_pos hx] at h
      injection h with h'
      subst h'
      exact hx
    · rw [findRow, if_neg hx] at h
      exact findRow_key t v xs i h

theorem upsert_merge_eq (db : List Indicator) (req : CreateIndicatorRequest)
    (sid : Option Nat) (now : Int) (nid : Nat) (t : IocType) (nv : Str)
    (i : Indicator) (hres : resolveKey req = some (t, nv))
    (hfound : findRow db t nv = some i) :
    upsert_indicator db req sid now nid =
      .ok (replaceRow db t nv (mergeRow i req sid now), mergeRow i req sid now) := by
  unfold upsert_indicator
  simp only [hres, hfound]

theorem upsert_insert_eq (db : List Indicator) (req : CreateIndicatorRequest)
    (sid : Option Nat) (now : Int) (nid : Nat) (t : IocType) (nv : Str)
    (hres : resolveKey req = some (t, nv)) (hfound : findRow db t nv = none) :
    upsert_indicator db req sid now nid =
      .ok (db ++ [insertRow t nv req sid now nid], insertRow t nv req sid now nid) := by
  unfold upsert_indicator
  simp only [hres, hfound]

theorem findRow_replace (t : IocType) (v : Str) (newRow : Indicator)
    (ht : newRow.ioc_type = t) (hv : newRow.value = v) :
    ∀ (db : List Indicator) (old : Indicator), findRow db t v = some old →
      findRow (replaceRow db t v newRow) t v = some newRow := by
  intro db
  induction db with
  | nil => intro old h; cases h
  | cons x xs ih =>
    intro old h
    by_cases hx : x.ioc_type = t ∧ x.value = v
    · show findRow ((if x.ioc_type = t ∧ x.value = v then newRow else x) ::
        replaceRow xs t v newRow) t v = some newRow
      rw [if_pos hx, findRow, if_pos ⟨ht, hv⟩]
    · show findRow ((if x.ioc_type = t ∧ x.value = v then newRow else x) ::
        replaceRow xs t v newRow) t v = some newRow
      rw [if_neg hx, findRow, if_neg hx]
      rw [findRow, if_neg hx] at h
      exact ih old h

theorem findRow_insert (t : IocType) (v : Str) (row : Indicator)
    (ht : row.ioc_type = t) (hv : row.value = v) :
    ∀ db : List Indicator, findRow db t v = none →
      findRow (db ++ [row]) t v = some row
  | [], _ => by
    show findRow [row] t v = some row
    rw [findRow, if_pos ⟨ht, hv⟩]
  | x :: xs, h => by
    by_cases hx : x.ioc_type = t ∧ x.value = v
    · rw [findRow, if_pos hx] at h
      cases h
    · rw [findRow, if_neg hx] at h
      show findRow (x :: (xs ++ [row])) t v = some row
      rw [findRow, if_neg hx]
      exact findRow_insert t v row ht hv xs h

/-- The row that results from folding a sequence of merges over a start row. -/
def foldMerge (i : Indicator) (cs : List UpsertCall) : Indicator :=
  cs.foldl (fun a c => mergeRow a c.req c.source_id c.now) i

theorem runUpserts_chain (t : IocType) (nv : Str) :
    ∀ (cs : List UpsertCall) (db : List Indicator) (i : Indicator),
      (∀ c ∈ cs, resolveKey c.req = some (t, nv)) →
      findRow db t nv = some i →
      List.Chain' MergeLe (i :: runUpserts db cs) ∧
      (i :: runUpserts db cs).getLast? = some (foldMerge i cs)
  | [], db, i, _, _ => by
    refine ⟨List.chain'_singleton i, rfl⟩
  | c :: cs, db, i, hres, hfound => by
    have hrk : resolveKey c.req = some (t, nv) := hres c (List.mem_cons_self c cs)
    have hkey := findRow_key t nv db i hfound
    have hstep : runUpserts db (c :: cs) =
        mergeRow i c.req c.source_id c.now ::
          runUpserts (replaceRow db t nv (mergeRow i c.req c.source_id c.now)) cs := by
      show (match upsert_indicator db c.req c.source_id c.now c.newId with
        | .ok (db', row) => row :: runUpserts db' cs
        | .error _ => runUpserts db cs) = _
      rw [upsert_merge_eq db c.req c.source_id c.now c.newId t nv i hrk hfound]
    have hkey' : (mergeRow i c.req c.source_id c.now).ioc_type = t ∧
        (mergeRow i c.req c.source_id c.now).value = nv := hkey
    have hfound' : findRow (replaceRow db t nv (mergeRow i c.req c.source_id c.now)) t nv =
        some (mergeRow i c.req c.source_id c.now) :=
      findRow_replace t nv _ hkey'.1 hkey'.2 db i hfound
    have ihres : ∀ x ∈ cs, resolveKey x.req = some (t, nv) :=
      fun x hx => hres x (List.mem_cons_of_mem c hx)
    obtain ⟨ihchain, ihlast⟩ := runUpserts_chain t nv cs
      (replaceRow db t nv (mergeRow i c.req c.source_id c.now))
      (mergeRow i c.req c.source_id c.now) ihres hfound'
    rw [hstep]
    constructor
    · exact List.chain'_cons.mpr ⟨mergeLe_mergeRow i c.req c.source_id c.now, ihchain⟩
    · rw [List.getLast?_cons_cons]
      exact ihlast

theorem foldMerge_tags (cs : List UpsertCall) :
    ∀ i : Indicator, (foldMerge i cs).tags =
      i.tags ++ (cs.map (fun c => c.req.tags.getD [])).flatten := by
  induction cs with
  | nil => intro i; simp [foldMerge]
  | cons c cs ih =>
    intro i
    show (foldMerge (mergeRow i c.req c.source_id c.now) cs).tags = _
    rw [ih]
    show (i.tags ++ c.req.tags.getD []) ++ _ = _
    rw [List.map_cons, List.flatten_cons, List.append_assoc]

theorem foldMerge_sources (cs : List UpsertCall) :
    ∀ i : Indicator, (foldMerge i cs).source_ids =
      i.source_ids ++ (cs.map (fun c => sourceVec c.source_id)).flatten := by
  induction cs with
  | nil => intro i; simp [foldMerge]
  | cons c cs ih =>
    intro i
    show (foldMerge (mergeRow i c.req c.source_id c.now) cs).source_ids = _
    rw [ih]
    show (i.source_ids ++ sourceVec c.source_id) ++ _ = _
    rw [List.map_cons, List.flatten_cons, List.append_assoc]

theorem mem_sourceVec (o : Option Nat) (x : Nat) : x ∈ sourceVec o ↔ o = some x := by
  cases o <;> simp [sourceVec, eq_comm]

/-- Claim C1: for every sequence of `upsert_indicator` calls whose requests all
resolve to the same `(ioc_type, normalized value)` key, starting from an empty
table: the rows observed after each call have monotonically non-decreasing
severity (in the order Unknown < Low < Medium < High < Critical) and
monotonically non-decreasing confidence, and after the whole sequence the
final row's tag set is exactly the union of all request tag sets and its
source-id set exactly the union of all supplied source ids.  (The severity
enum comparison order is modelled from the spec §3, since the migrations that
create the database enum are not under src/.) -/
theorem C1_upsert_merge_invariants (cs : List UpsertCall) (t : IocType) (nv : Str)
    (hres : ∀ c ∈ cs, resolveKey c.req = some (t, nv)) :
    List.Chain' MergeLe (runUpserts [] cs)
    ∧ ∀ fin, (runUpserts [] cs).getLast? = some fin →
        ((∀ s, s ∈ fin.tags ↔ ∃ c ∈ cs, s ∈ c.req.tags.getD [])
         ∧ (∀ sid, sid ∈ fin.source_ids ↔ ∃ c ∈ cs, c.source_id = some sid)) := by
  cases cs with
  | nil =>
    refine ⟨List.chain'_nil, ?_⟩
    intro fin h
    cases h
  | cons c cs =>
    have hrk : resolveKey c.req = some (t, nv) := hres c (List.mem_cons_self c cs)
    have hfound0 : findRow [] t nv = none := rfl
    have hstep : runUpserts [] (c :: cs) =
        insertRow t nv c.req c.source_id c.now c.newId ::
          runUpserts ([] ++ [insertRow t nv c.req c.source_id c.now c.newId]) cs := by
      show (match upsert_indicator [] c.req c.source_id c.now c.newId with
        | .ok (db', r) => r :: runUpserts db' cs
        | .error _ => runUpserts [] cs) = _
      rw [upsert_insert_eq [] c.req c.source_id c.now c.newId t nv hrk hfound0]
    have hfound1 : findRow ([] ++ [insertRow t nv c.req c.source_id c.now c.newId]) t nv =
        some (insertRow t nv c.req c.source_id c.now c.newId) :=
      findRow_insert t nv _ rfl rfl [] hfound0
    have ihres : ∀ x ∈ cs, resolveKey x.req = some (t, nv) :=
      fun x hx => hres x (List.mem_cons_of_mem c hx)
    obtain ⟨hchain, hlast⟩ := runUpserts_chain t nv cs
      ([] ++ [insertRow t nv c.req c.source_id c.now c.newId])
      (insertRow t nv c.req c.source_id c.now c.newId) ihres hfound1
    rw [hstep]
    refine ⟨hchain, ?_⟩
    intro fin hfin
    rw [hlast] at hfin
    have hfin' : fin = foldMerge (insertRow t nv c.req c.source_id c.now c.newId) cs :=
      (Option.some.inj hfin).symm
    subst hfin'
    constructor
    · intro s
      rw [foldMerge_tags]
      show s ∈ c.req.tags.getD [] ++ _ ↔ _
      simp only [List.mem_append, List.mem_flatten, List.mem_map, List.mem_cons]
      constructor
      · rintro (hs | ⟨l, ⟨x, hx, rfl⟩, hsl⟩)
        · exact ⟨c, Or.inl rfl, hs⟩
        · exact ⟨x, Or.inr hx, hsl⟩
      · rintro ⟨x, hx | hx, hs⟩
        · subst hx
          exact Or.inl hs
        · exact Or.inr ⟨_, ⟨x, hx, rfl⟩, hs⟩
    · intro sid
      rw [foldMerge_sources]
      show sid ∈ sourceVec c.source_id ++ _ ↔ _
      simp only [List.mem_append, List.mem_flatten, List.mem_map, List.mem_cons]
      constructor
      · rintro (hs | ⟨l, ⟨x, hx, rfl⟩, hsl⟩)
        · exact ⟨c, Or.inl rfl, (mem_sourceVec _ _).mp hs⟩
        · exact ⟨x, Or.inr hx, (mem_sourceVec _ _).mp hsl⟩
      · rintro ⟨x, hx | hx, hs⟩
        · subst hx
          exact Or.inl ((mem_sourceVec _ _).mpr hs)
        · exact Or.inr ⟨_, ⟨x, hx, rfl⟩, (mem_sourceVec _ _).mpr hs⟩

/-- First sample call for the C1 witness: create `8.8.8.8` with a tag and a
source id. -/
def c1CallA : UpsertCall where
  req :=
    { value := "8.8.8.8".toList
      ioc_type := some .ip
      severity := none
      confidence := none
      tlp := none
      tags := some ["feed".toList]
      source := none
      expiration_days := none }
  source_id := some 7
  now := 100
  newId := 1

/-- Second sample call for the C1 witness: the same indicator observed again
with different spacing, higher severity and another tag. -/
def c1CallB : UpsertCall where
  req :=
    { value := " 8.8.8.8 ".toList
      ioc_type := some .ip
      severity := some .high
      confidence := some 30
      tlp := some .red
      tags := some ["botnet".toList]
      source := none
      expiration_days := some 9 }
  source_id := none
  now := 200
  newId := 2

/-- Witness for C1 at a concrete two-call sequence on the key
`(Ip, "8.8.8.8")`. -/
theorem C1_witness :
    (∀ c ∈ [c1CallA, c1CallB], resolveKey c.req = some (IocType.ip, "8.8.8.8".toList))
    ∧ (List.Chain' MergeLe (runUpserts [] [c1CallA, c1CallB])
       ∧ ∀ fin, (runUpserts [] [c1CallA, c1CallB]).getLast? = some fin →
          ((∀ s, s ∈ fin.tags ↔ ∃ c ∈ [c1CallA, c1CallB], s ∈ c.req.tags.getD [])
           ∧ (∀ sid, sid ∈ fin.source_ids ↔
                ∃ c ∈ [c1CallA, c1CallB], c.source_id = some sid))) :=
  ⟨by decide,
   C1_upsert_merge_invariants [c1CallA, c1CallB] .ip ("8.8.8.8".toList) (by decide)⟩

theorem mem_replaceRow (t : IocType) (v : Str) (newRow : Indicator) :
    ∀ (db : List Indicator) (old : Indicator), findRow db t v = some old →
      newRow ∈ replaceRow db t v newRow
  | [], old, h => by cases h
  | x :: xs, old, h => by
    by_cases hx : x.ioc_type = t ∧ x.value = v
    · show newRow ∈ (if x.ioc_type = t ∧ x.value = v then newRow else x) ::
        replaceRow xs t v newRow
      rw [if_pos hx]
      exact List.mem_cons_self _ _
    · rw [findRow, if_neg hx] at h
      show newRow ∈ (if x.ioc_type = t ∧ x.value = v then newRow else x) ::
        replaceRow xs t v newRow
      rw [if_neg hx]
      exact List.mem_cons_of_mem x (mem_replaceRow t v newRow xs old h)

/-- Claim C2: when an `upsert_indicator` call hits an existing row with the same
`(ioc_type, value)` key, the returned (stored) row updates exactly severity
(max by enum ordinal), confidence (max), `last_seen` (now), tags
(concatenation, i.e. multiset union), `source_ids` (concatenation) and
`updated_at` (now), while `threat_score`, `tlp`, `expiration`, `first_seen` —
and also `id`, `ioc_type`, `value`, `created_at` — keep the existing row's
values regardless of what the incoming request carries; the returned row is
stored in the new table. -/
theorem C2_upsert_conflict_frame (db : List Indicator) (req : CreateIndicatorRequest)
    (sid : Option Nat) (now : Int) (nid : Nat) (t : IocType) (nv : Str)
    (old : Indicator) (hres : resolveKey req = some (t, nv))
    (hfound : findRow db t nv = some old) :
    ∀ p : List Indicator × Indicator, upsert_indicator db req sid now nid = .ok p →
      p.2.threat_score = old.threat_score
      ∧ p.2.tlp = old.tlp
      ∧ p.2.expiration = old.expiration
      ∧ p.2.first_seen = old.first_seen
      ∧ p.2.id = old.id
      ∧ p.2.ioc_type = old.ioc_type
      ∧ p.2.value = old.value
      ∧ p.2.created_at = old.created_at
      ∧ p.2.severity = sevMax old.severity (req.severity.getD .unknown)
      ∧ p.2.confidence = max old.confidence (req.confidence.getD 50)
      ∧ p.2.last_seen = now
      ∧ p.2.updated_at = now
      ∧ p.2.tags = old.tags ++ req.tags.getD []
      ∧ p.2.source_ids = old.source_ids ++ sourceVec sid
      ∧ p.2 ∈ p.1 := by
  intro p h
  rw [upsert_merge_eq db req sid now nid t nv old hres hfound] at h
  injection h with h'
  subst h'
  refine ⟨rfl, rfl, rfl, rfl, rfl, rfl, rfl, rfl, rfl, rfl, rfl, rfl, rfl, rfl, ?_⟩
  exact mem_replaceRow t nv _ db old hfound

/-- The existing row for the C2 witness. -/
def c2Old : Indicator where
  id := 11
  ioc_type := .ip
  value := "8.8.8.8".toList
  severity := .medium
  confidence := 60
  threat_score := 77
  tlp := .green
  first_seen := 10
  last_seen := 20
  expiration := some 999
  tags := ["old".toList]
  source_ids := [3]
  created_at := 10
  updated_at := 20

/-- The conflicting request for the C2 witness: it carries different severity,
confidence, tlp and expiration values, which must not leak into the preserved
columns. -/
def c2Req : CreateIndicatorRequest where
  value := "8.8.8.8".toList
  ioc_type := some .ip
  severity := some .high
  confidence := some 30
  tlp := some .red
  tags := some ["new".toList]
  source := none
  expiration_days := some 1

/-- Witness for C2 at a concrete conflicting upsert. -/
theorem C2_witness :
    resolveKey c2Req = some (IocType.ip, "8.8.8.8".toList)
    ∧ findRow [c2Old] IocType.ip ("8.8.8.8".toList) = some c2Old
    ∧ upsert_indicator [c2Old] c2Req (some 9) 500 42 =
        .ok (replaceRow [c2Old] IocType.ip ("8.8.8.8".toList)
              (mergeRow c2Old c2Req (some 9) 500),
             mergeRow c2Old c2Req (some 9) 500)
    ∧ ((mergeRow c2Old c2Req (some 9) 500).threat_score = c2Old.threat_score
       ∧ (mergeRow c2Old c2Req (some 9) 500).tlp = c2Old.tlp
       ∧ (mergeRow c2Old c2Req (some 9) 500).expiration = c2Old.expiration
       ∧ (mergeRow c2Old c2Req (some 9) 500).first_seen = c2Old.first_seen
       ∧ (mergeRow c2Old c2Req (some 9) 500).id = c2Old.id
       ∧ (mergeRow c2Old c2Req (some 9) 500).ioc_type = c2Old.ioc_type
       ∧ (mergeRow c2Old c2Req (some 9) 500).value = c2Old.value
       ∧ (mergeRow c2Old c2Req (some 9) 500).created_at = c2Old.created_at
       ∧ (mergeRow c2Old c2Req (some 9) 500).severity =
           sevMax c2Old.severity (c2Req.severity.getD .unknown)
       ∧ (mergeRow c2Old c2Req (some 9) 500).confidence =
           max c2Old.confidence (c2Req.confidence.getD 50)
       ∧ (mergeRow c2Old c2Req (some 9) 500).last_seen = 500
       ∧ (mergeRow c2Old c2Req (some 9) 500).updated_at = 500
       ∧ (mergeRow c2Old c2Req (some 9) 500).tags = c2Old.tags ++ c2Req.tags.getD []
       ∧ (mergeRow c2Old c2Req (some 9) 500).source_ids =
           c2Old.source_ids ++ sourceVec (some 9)
       ∧ mergeRow c2Old c2Req (some 9) 500 ∈
           replaceRow [c2Old] IocType.ip ("8.8.8.8".toList)
             (mergeRow c2Old c2Req (some 9) 500)) :=
  ⟨by decide, by decide, by rfl,
   C2_upsert_conflict_frame [c2Old] c2Req (some 9) 500 42 IocType.ip
     ("8.8.8.8".toList) c2Old (by decide) (by decide)
     (replaceRow [c2Old] IocType.ip ("8.8.8.8".toList)
        (mergeRow c2Old c2Req (some 9) 500),
      mergeRow c2Old c2Req (some 9) 500)
     (by rfl)⟩

/-! ### Search and pagination (src/storage/mod.rs lines 137–188) -/

/-- Filter type `IndicatorFilter` (src/models/mod.rs lines 211–223). -/
structure IndicatorFilter where
  ioc_type : Option IocType := none
  severity : Option Severity := none
  min_confidence : Option Int := none
  min_threat_score : Option Int := none
  tags : Option (List Str) := none
  source_id : Option Nat := none
  first_seen_after : Option Int := none
  first_seen_before : Option Int := none
  search : Option Str := none
  page : Option Int := none
  per_page : Option Int := none
deriving DecidableEq, Repr

/-- The parameterized WHERE conditions pushed by `search_indicators`
(src/storage/mod.rs lines 145–159), beyond the constant `1=1`: one literal
condition per supplied field among the five the source inspects, each
referencing a bind placeholder `$1`–`$5`.  The `tags`, `source_id`,
`first_seen_after` and `first_seen_before` filter fields push nothing. -/
def pushedConditions (f : IndicatorFilter) : List Str :=
  (if f.ioc_type.isSome then ["ioc_type = $1".toList] else []) ++
  (if f.severity.isSome then ["severity = $2".toList] else []) ++
  (if f.min_confidence.isSome then ["confidence >= $3".toList] else []) ++
  (if f.min_threat_score.isSome then ["threat_score >= $4".toList] else []) ++
  (if f.search.isSome then ["value ILIKE $5".toList] else [])

/-- The error context `search_indicators` attaches when its SELECT fails
(src/storage/mod.rs line 172). -/
def searchErr : Str := "Failed to search indicators".toList

/-- Response type `PaginatedResponse` (src/models/mod.rs lines 227–233), for indicators. -/
structure PaginatedResponse where
  data : List Indicator
  total : Int
  page : Int
  per_page : Int
  total_pages : Int
deriving DecidableEq, Repr

def insertByLastSeenDesc (i : Indicator) : List Indicator → List Indicator
  | [] => [i]
  | j :: js =>
    if j.last_seen ≤ i.last_seen then i :: j :: js
    else j :: insertByLastSeenDesc i js

/-- Model of `ORDER BY last_seen DESC` (insertion sort). -/
def sortByLastSeenDesc (l : List Indicator) : List Indicator :=
  l.foldr insertByLastSeenDesc []

/-- Models `(total as f64 / per_page as f64).ceil() as i64`
(src/storage/mod.rs line 186): the exact rational ceiling for nonzero
`per_page` (exact in the f64 range the table can reach); division by zero
follows the saturating float-to-integer cast (`+∞ → i64::MAX`, `NaN → 0`,
`-∞ → i64::MIN`). -/
def totalPagesCalc (total perPage : Int) : Int :=
  if perPage = 0 then
    if 0 < total then 2 ^ 63 - 1 else if total < 0 then -(2 ^ 63) else 0
  else -(Int.fdiv (-total) perPage)

/-- The effective page: `filter.page.unwrap_or(1).max(1)`
(src/storage/mod.rs line 138). -/
def searchPage (f : IndicatorFilter) : Int := max (f.page.getD 1) 1

/-- The effective page size: `filter.per_page.unwrap_or(50).min(1000)`
(src/storage/mod.rs line 139) — clamped above only. -/
def searchPerPage (f : IndicatorFilter) : Int := min (f.per_page.getD 50) 1000

/-- The offset `(page - 1) * per_page` (src/storage/mod.rs line 140). -/
def searchOffset (f : IndicatorFilter) : Int := (searchPage f - 1) * searchPerPage f

/-- The response a successful search produces: with no pushed condition the
clause is `WHERE 1=1`, so every indicator is counted and the data page is the
whole table ordered by `last_seen` descending, sliced by the interpolated
offset and limit. -/
def searchOkResp (db : List Indicator) (f : IndicatorFilter) : PaginatedResponse where
  data := ((sortByLastSeenDesc db).drop (searchOffset f).toNat).take (searchPerPage f).toNat
  total := (db.length : Int)
  page := searchPage f
  per_page := searchPerPage f
  total_pages := totalPagesCalc ((db.length : Int)) (searchPerPage f)

/-- Model of `search_indicators` (src/storage/mod.rs lines 137–188).  The
source pushes a `$n`-parameterized condition for each supplied field among
`ioc_type`, `severity`, `min_confidence`, `min_threat_score` and `search`,
but never calls `.bind` on either prepared statement (lines 164–179), so the
query fails at runtime whenever any condition is pushed, and the call returns
the `Err` carrying the `Failed to search indicators` context.  `per_page` and
the offset are interpolated literally into the SQL text, so a negative
effective `per_page` yields a negative `LIMIT`, which PostgreSQL rejects —
that call fails too (with `page ≥ 1` and `per_page ≥ 0` the offset is never
negative).  Only a call with no pushed condition and a non-negative page size
succeeds, and it performs no filtering at all. -/
def search_indicators (db : List Indicator) (f : IndicatorFilter) :
    Except Str PaginatedResponse :=
  if pushedConditions f ≠ [] then .error searchErr
  else if searchPerPage f < 0 then .error searchErr
  else .ok (searchOkResp db f)

/-- Spec-side search predicate, following the spec's words (§4.2): all
supplied filter fields combine with AND — ioc_type equal, severity equal,
confidence at least `min_confidence`, threat score at least
`min_threat_score`, tags containing all listed tags, `source_id` among the
row's source ids, `first_seen` inside the given window, and the value
containing the search string case-insensitively.  Used only to compare the
implementation's behaviour against the claim. -/
def specMatches (f : IndicatorFilter) (i : Indicator) : Bool :=
  (match f.ioc_type with
   | none => true
   | some t => decide (i.ioc_type = t)) &&
  (match f.severity with
   | none => true
   | some s => decide (i.severity = s)) &&
  (match f.min_confidence with
   | none => true
   | some m => decide (m ≤ i.confidence)) &&
  (match f.min_threat_score with
   | none => true
   | some m => decide (m ≤ i.threat_score)) &&
  (match f.tags with
   | none => true
   | some ts => ts.all (fun s => i.tags.any (fun x => decide (x = s)))) &&
  (match f.source_id with
   | none => true
   | some sid => decide (sid ∈ i.source_ids)) &&
  (match f.first_seen_after with
   | none => true
   | some a => decide (a ≤ i.first_seen)) &&
  (match f.first_seen_before with
   | none => true
   | some b => decide (i.first_seen ≤ b)) &&
  (match f.search with
   | none => true
   | some s => (findSub (lowerL s) (lowerL i.value)).isSome)

/-- A sample stored indicator used by the C3 counterexample and witness. -/
def c3Row : Indicator where
  id := 21
  ioc_type := .ip
  value := "8.8.8.8".toList
  severity := .low
  confidence := 50
  threat_score := 50
  tlp := .amber
  first_seen := 10
  last_seen := 10
  expiration := none
  tags := []
  source_ids := []
  created_at := 10
  updated_at := 10

/-- A filter asking for rows tagged `botnet`. -/
def c3Filter : IndicatorFilter where
  tags := some ["botnet".toList]

/-- A filter asking for rows with confidence at least 1. -/
def c3ConfFilter : IndicatorFilter where
  min_confidence := some 1

/-- The response actually returned for the tags-only filter on `[c3Row]`. -/
def c3TagResp : PaginatedResponse where
  data := [c3Row]
  total := 1
  page := 1
  per_page := 50
  total_pages := 1

/-- Claim C3 counterexample: (a) a `tags = ["botnet"]` filter pushes no WHERE
condition at all, so a row with no tags is returned even though the claimed
conjunction excludes it; (b) a `min_confidence = 1` filter pushes the
condition `confidence >= $3` whose placeholder is never bound, so the call
fails at runtime instead of returning the matching rows (`c3Row` has
confidence 50 and ought to be returned by the claimed behaviour). -/
theorem C3_counterexample :
    (specMatches c3Filter c3Row = false
     ∧ search_indicators [c3Row] c3Filter = .ok c3TagResp
     ∧ c3Row ∈ c3TagResp.data)
    ∧ (specMatches c3ConfFilter c3Row = true
       ∧ search_indicators [c3Row] c3ConfFilter = .error searchErr) := by
  refine ⟨⟨by decide, by rfl, by decide⟩, ⟨by decide, by rfl⟩⟩

theorem search_error_of_conditions (db : List Indicator) (f : IndicatorFilter)
    (h : pushedConditions f ≠ []) : search_indicators db f = .error searchErr := by
  unfold search_indicators
  rw [if_pos h]

theorem search_error_of_neg (db : List Indicator) (f : IndicatorFilter)
    (h1 : pushedConditions f = []) (h2 : searchPerPage f < 0) :
    search_indicators db f = .error searchErr := by
  unfold search_indicators
  rw [if_neg (fun hne => hne h1), if_pos h2]

theorem search_eq_ok (db : List Indicator) (f : IndicatorFilter)
    (h1 : pushedConditions f = []) (h2 : ¬ searchPerPage f < 0) :
    search_indicators db f = .ok (searchOkResp db f) := by
  unfold search_indicators
  rw [if_neg (fun hne => hne h1), if_neg h2]

theorem mem_insertByLastSeenDesc (x i : Indicator) :
    ∀ l : List Indicator, x ∈ insertByLastSeenDesc i l → x = i ∨ x ∈ l
  | [], h => Or.inl (by
      have h2 : x ∈ [i] := h
      simpa using h2)
  | j :: js, h => by
    have hdef : insertByLastSeenDesc i (j :: js) =
        (if j.last_seen ≤ i.last_seen then i :: j :: js
         else j :: insertByLastSeenDesc i js) := rfl
    by_cases hc : j.last_seen ≤ i.last_seen
    · rw [hdef, if_pos hc] at h
      rcases List.mem_cons.mp h with h | h
      · exact Or.inl h
      · exact Or.inr h
    · rw [hdef, if_neg hc] at h
      rcases List.mem_cons.mp h with h | h
      · exact Or.inr (h ▸ List.mem_cons_self j js)
      · rcases mem_insertByLastSeenDesc x i js h with h2 | h2
        · exact Or.inl h2
        · exact Or.inr (List.mem_cons_of_mem j h2)

theorem mem_sortByLastSeenDesc (x : Indicator) :
    ∀ l : List Indicator, x ∈ sortByLastSeenDesc l → x ∈ l
  | [], h => by
    have h2 : x ∈ ([] : List Indicator) := h
    exact absurd h2 (List.not_mem_nil x)
  | i :: is, h => by
    have h2 : x ∈ insertByLastSeenDesc i (sortByLastSeenDesc is) := h
    rcases mem_insertByLastSeenDesc x i _ h2 with h3 | h3
    · exact h3 ▸ List.mem_cons_self i is
    · exact List.mem_cons_of_mem i (mem_sortByLastSeenDesc x is h3)

theorem length_insertByLastSeenDesc (i : Indicator) :
    ∀ l : List Indicator, (insertByLastSeenDesc i l).length = l.length + 1
  | [] => rfl
  | j :: js => by
    have hdef : insertByLastSeenDesc i (j :: js) =
        (if j.last_seen ≤ i.last_seen then i :: j :: js
         else j :: insertByLastSeenDesc i js) := rfl
    by_cases hc : j.last_seen ≤ i.last_seen
    · rw [hdef, if_pos hc]
      rfl
    · rw [hdef, if_neg hc, List.length_cons, length_insertByLastSeenDesc i js,
        List.length_cons]

theorem length_sortByLastSeenDesc :
    ∀ l : List Indicator, (sortByLastSeenDesc l).length = l.length
  | [] => rfl
  | i :: is => by
    show (insertByLastSeenDesc i (sortByLastSeenDesc is)).length = is.length + 1
    rw [length_insertByLastSeenDesc, length_sortByLastSeenDesc is]

/-- Claim C3 amended: `search_indicators` never filters by the supplied
fields: for each supplied field among `ioc_type`, `severity`,
`min_confidence`, `min_threat_score` and `search` it pushes a parameterized
condition but never binds the parameter, so any such field makes the call
fail at runtime; the `tags`, `source_id` and `first_seen` window fields push
no condition and have no effect on the result at all; a call supplying none
of those five fields succeeds and returns every indicator unfiltered
(paginated, with the full table count). -/
theorem C3_amended_search_filters (db : List Indicator) (f : IndicatorFilter) :
    (pushedConditions f ≠ [] → ∃ e, search_indicators db f = .error e)
    ∧ (pushedConditions f = [] ↔
        f.ioc_type = none ∧ f.severity = none ∧ f.min_confidence = none
          ∧ f.min_threat_score = none ∧ f.search = none)
    ∧ (∀ resp, search_indicators db f = .ok resp →
        resp.total = (db.length : Int)
        ∧ (∀ i, i ∈ resp.data → i ∈ db)
        ∧ (f.page = none → f.per_page = none → db.length ≤ 50 →
            resp.data = sortByLastSeenDesc db))
    ∧ search_indicators db f =
        search_indicators db
          { f with
            tags := none
            source_id := none
            first_seen_after := none
            first_seen_before := none } := by
  refine ⟨?_, ?_, ?_, rfl⟩
  · intro h
    exact ⟨searchErr, search_error_of_conditions db f h⟩
  · unfold pushedConditions
    rcases f with ⟨ft, fs, fc, fth, ftags, fsid, fa, fb, fsearch, fp, fpp⟩
    cases ft <;> cases fs <;> cases fc <;> cases fth <;> cases fsearch <;> simp
  · intro resp h
    by_cases h1 : pushedConditions f = []
    · by_cases h2 : searchPerPage f < 0
      · rw [search_error_of_neg db f h1 h2] at h
        cases h
      · rw [search_eq_ok db f h1 h2] at h
        injection h with h'
        subst h'
        refine ⟨rfl, ?_, ?_⟩
        · intro i hi
          exact mem_sortByLastSeenDesc i db
            (List.mem_of_mem_drop (List.mem_of_mem_take hi))
        · intro hpage hpp hlen
          show ((sortByLastSeenDesc db).drop (searchOffset f).toNat).take
            (searchPerPage f).toNat = sortByLastSeenDesc db
          have ho : (searchOffset f).toNat = 0 := by
            unfold searchOffset searchPage searchPerPage
            rw [hpage, hpp]
            decide
          have hp : (searchPerPage f).toNat = 50 := by
            unfold searchPerPage
            rw [hpp]
            decide
          rw [ho, hp, List.drop_zero]
          refine List.take_of_length_le ?_
          rw [length_sortByLastSeenDesc]
          omega
    · rw [search_error_of_conditions db f h1] at h
      cases h

/-- Witness for the amended C3 theorem: the condition-bearing filter fails,
while the tags-only filter succeeds and returns the whole (untagged) table. -/
theorem C3_amended_witness :
    pushedConditions c3ConfFilter ≠ []
    ∧ (∃ e, search_indicators [c3Row] c3ConfFilter = .error e)
    ∧ c3TagResp.data = sortByLastSeenDesc [c3Row] :=
  ⟨by decide,
   (C3_amended_search_filters [c3Row] c3ConfFilter).1 (by decide),
   ((C3_amended_search_filters [c3Row] c3Filter).2.2.1 c3TagResp (by rfl)).2.2
     rfl rfl (by decide)⟩

/-- The filter used by the C9 counterexample: an explicit `per_page = 0`. -/
def c9Filter : IndicatorFilter where
  per_page := some 0

/-- The response actually returned for `per_page = 0` on an empty table. -/
def c9ZeroResp : PaginatedResponse where
  data := []
  total := 0
  page := 1
  per_page := 0
  total_pages := 0

/-- A filter with a negative `per_page`. -/
def c9NegFilter : IndicatorFilter where
  per_page := some (-5)

/-- Claim C9 counterexample: `per_page` is only clamped from above
(`.unwrap_or(50).min(1000)`), never raised to 1: a request with
`per_page = 0` succeeds with an effective `per_page` of 0, outside the
claimed range `[1, 1000]`; and a request with `per_page = -5` produces no
response at all — the interpolated negative LIMIT makes the query fail —
where the claim asserts a response for every filter. -/
theorem C9_counterexample :
    (search_indicators [] c9Filter = .ok c9ZeroResp
     ∧ ¬ (1 ≤ c9ZeroResp.per_page))
    ∧ search_indicators [] c9NegFilter = .error searchErr := by
  refine ⟨⟨by rfl, by decide⟩, by rfl⟩

/-- For a positive page size, `totalPagesCalc` is the ceiling of the
division, characterized by its Galois property. -/
theorem totalPagesCalc_galois (total pp n : Int) (hpp : 1 ≤ pp) :
    totalPagesCalc total pp ≤ n ↔ total ≤ n * pp := by
  unfold totalPagesCalc
  rw [if_neg (by omega), Int.fdiv_eq_ediv _ (by omega)]
  constructor
  · intro h
    have h2 : -n ≤ (-total) / pp := by omega
    have h3 := (Int.le_ediv_iff_mul_le (by omega)).mp h2
    have h4 : -n * pp = -(n * pp) := by ring
    rw [h4] at h3
    omega
  · intro h
    have h3 : -n * pp ≤ -total := by
      have h4 : -n * pp = -(n * pp) := by ring
      rw [h4]
      omega
    have h2 := (Int.le_ediv_iff_mul_le (by omega)).mpr h3
    omega

/-- Claim C9 amended: whenever `search_indicators` returns a response at all —
it fails whenever any of `ioc_type`, `severity`, `min_confidence`,
`min_threat_score` or `search` is supplied (its placeholders are never
bound), and whenever the effective `per_page` is negative (a negative LIMIT
is interpolated into the SQL) — that response has `page ≥ 1` (missing page
defaults to 1, smaller values clamped up to 1), `per_page` defaulting to 50
and clamped above to 1000 but not below (a zero `per_page` passes through),
the total table row count, and, whenever the effective `per_page` is at least
1, `total_pages` equal to the ceiling of `total / per_page`, characterized by
its Galois property. -/
theorem C9_amended_pagination (db : List Indicator) (f : IndicatorFilter) :
    (∀ resp, search_indicators db f = .ok resp →
      1 ≤ resp.page
      ∧ (f.page = none → resp.page = 1)
      ∧ resp.per_page ≤ 1000
      ∧ (f.per_page = none → resp.per_page = 50)
      ∧ resp.total = (db.length : Int)
      ∧ (∀ n : Int, 1 ≤ resp.per_page →
          (resp.total_pages ≤ n ↔ resp.total ≤ n * resp.per_page)))
    ∧ (searchPerPage f < 0 → search_indicators db f = .error searchErr) := by
  constructor
  · intro resp h
    by_cases h1 : pushedConditions f = []
    · by_cases h2 : searchPerPage f < 0
      · rw [search_error_of_neg db f h1 h2] at h
        cases h
      · rw [search_eq_ok db f h1 h2] at h
        injection h with h'
        subst h'
        refine ⟨le_max_right _ _, ?_, min_le_right _ _, ?_, rfl, ?_⟩
        · intro hp
          show max ((f.page.getD 1)) 1 = 1
          rw [hp]
          rfl
        · intro hp
          show min ((f.per_page.getD 50)) 1000 = 50
          rw [hp]
          rfl
        · intro n hpp
          exact totalPagesCalc_galois ((db.length : Int)) (searchPerPage f) n hpp
    · rw [search_error_of_conditions db f h1] at h
      cases h
  · intro h2
    by_cases h1 : pushedConditions f = []
    · exact search_error_of_neg db f h1 h2
    · exact search_error_of_conditions db f h1

/-- The response for the empty filter over an empty table. -/
def c9EmptyResp : PaginatedResponse where
  data := []
  total := 0
  page := 1
  per_page := 50
  total_pages := 0

/-- Witness for the amended C9 theorem: the empty filter succeeds with the
default pagination and satisfies the Galois bound at `n = 0`, and a negative
`per_page` makes the call fail. -/
theorem C9_amended_witness :
    c9EmptyResp.page = 1
    ∧ c9EmptyResp.per_page = 50
    ∧ (c9EmptyResp.total_pages ≤ 0 ↔ c9EmptyResp.total ≤ 0 * c9EmptyResp.per_page)
    ∧ searchPerPage c9NegFilter < 0
    ∧ search_indicators [] c9NegFilter = .error searchErr :=
  ⟨((C9_amended_pagination [] {}).1 c9EmptyResp (by rfl)).2.1 rfl,
   ((C9_amended_pagination [] {}).1 c9EmptyResp (by rfl)).2.2.2.1 rfl,
   ((C9_amended_pagination [] {}).1 c9EmptyResp (by rfl)).2.2.2.2.2 0 (by decide),
   by decide,
   (C9_amended_pagination [] c9NegFilter).2 (by decide)⟩

/-! ### Enrichment coordinator (src/enrichment/mod.rs) -/

/-- An enrichment provider (the `EnrichmentProvider` trait,
src/enrichment/mod.rs lines 17–34): name, enrichment type, supported IOC
types, the outcome of `enrich` on an indicator, and the TTL in hours.  `V` is
the opaque JSON document type. -/
structure Provider (V : Type) where
  pname : Str
  etype : Str
  supports : IocType → Bool
  enrich : Indicator → Except Str (Option V)
  ttl_hours : Int

/-- Model of `EnrichmentEngine::enrich_all` (src/enrichment/mod.rs lines
51–87): walk the registered providers in order, skip those that do not support
the indicator's type, collect an `(enrichment_type, name, data, ttl_hours)`
tuple for each `Ok(Some(data))`, and skip `Ok(None)` (logged at debug) and
`Err` (logged at warn) without propagating anything. -/
def enrich_all {V : Type} (providers : List (Provider V)) (ind : Indicator) :
    List (Str × Str × V × Int) :=
  match providers with
  | [] => []
  | p :: ps =>
    if p.supports ind.ioc_type then
      match p.enrich ind with
      | .ok (some data) => (p.etype, p.pname, data, p.ttl_hours) :: enrich_all ps ind
      | .ok none => enrich_all ps ind
      | .error _ => enrich_all ps ind
    else enrich_all ps ind

/-- The tuple a single provider contributes, if any: present exactly when the
provider supports the type and its `enrich` returned `Ok(Some(data))`. -/
def contributes {V : Type} (ind : Indicator) (p : Provider V) :
    Option (Str × Str × V × Int) :=
  if p.supports ind.ioc_type then
    match p.enrich ind with
    | .ok (some data) => some (p.etype, p.pname, data, p.ttl_hours)
    | .ok none => none
    | .error _ => none
  else none

/-- Claim C4: `enrich_all` returns exactly one tuple per provider that supports
the indicator's type and whose `enrich` returned `Ok(Some(data))`; providers
returning `Err` or `Ok(None)` and non-applicable providers contribute nothing
and abort nothing — in particular one provider's error never suppresses any
other applicable provider's tuple, and no error is propagated (the coordinator
is a total function into a plain list). -/
theorem C4_enrich_all_error_isolation {V : Type} (providers : List (Provider V))
    (ind : Indicator) :
    enrich_all providers ind = providers.filterMap (contributes ind)
    ∧ (∀ p ∈ providers, p.supports ind.ioc_type = true →
        ∀ d, p.enrich ind = .ok (some d) →
          (p.etype, p.pname, d, p.ttl_hours) ∈ enrich_all providers ind) := by
  have hmain : ∀ ps : List (Provider V), enrich_all ps ind = ps.filterMap (contributes ind) := by
    intro ps
    induction ps with
    | nil => rfl
    | cons p ps ih =>
      show (if p.supports ind.ioc_type then
          match p.enrich ind with
          | .ok (some data) => (p.etype, p.pname, data, p.ttl_hours) :: enrich_all ps ind
          | .ok none => enrich_all ps ind
          | .error _ => enrich_all ps ind
        else enrich_all ps ind) = _
      rw [List.filterMap_cons]
      unfold contributes
      by_cases hs : p.supports ind.ioc_type = true
      · rw [if_pos hs, if_pos hs]
        cases he : p.enrich ind with
        | ok o =>
          cases o with
          | some d => simpa using ih
          | none => simpa using ih
        | error e => simpa using ih
      · rw [if_neg hs, if_neg hs]
        simpa using ih
  refine ⟨hmain providers, ?_⟩
  intro p hp hs d hd
  rw [hmain providers]
  rw [List.mem_filterMap]
  refine ⟨p, hp, ?_⟩
  unfold contributes
  rw [if_pos hs, hd]

/-- The indicator enriched in the C4 witness. -/
def c4Ind : Indicator where
  id := 31
  ioc_type := .ip
  value := "8.8.8.8".toList
  severity := .low
  confidence := 50
  threat_score := 50
  tlp := .amber
  first_seen := 0
  last_seen := 0
  expiration := none
  tags := []
  source_ids := []
  created_at := 0
  updated_at := 0

/-- A provider that fails with an upstream error. -/
def c4Abuse : Provider Nat where
  pname := "abuseipdb".toList
  etype := "reputation".toList
  supports := fun t => decide (t = .ip)
  enrich := fun _ => .error ("http 500".toList)
  ttl_hours := 12

/-- A provider that succeeds with data. -/
def c4Geo : Provider Nat where
  pname := "maxmind".toList
  etype := "geoip".toList
  supports := fun t => decide (t = .ip)
  enrich := fun _ => .ok (some 99)
  ttl_hours := 168

/-- A provider that finds no data. -/
def c4Dns : Provider Nat where
  pname := "dns".toList
  etype := "dns".toList
  supports := fun t => decide (t = .ip ∨ t = .domain)
  enrich := fun _ => .ok none
  ttl_hours := 24

/-- A provider that does not support IPs. -/
def c4Whois : Provider Nat where
  pname := "whois".toList
  etype := "whois".toList
  supports := fun t => decide (t = .domain)
  enrich := fun _ => .ok (some 7)
  ttl_hours := 168

/-- Witness for C4: with an erroring provider first in the registry, the
succeeding provider's tuple is still produced, and the full result contains
exactly that one tuple. -/
theorem C4_witness :
    c4Geo.supports c4Ind.ioc_type = true
    ∧ c4Geo.enrich c4Ind = .ok (some 99)
    ∧ ("geoip".toList, "maxmind".toList, 99, (168 : Int)) ∈
        enrich_all [c4Abuse, c4Geo, c4Dns, c4Whois] c4Ind
    ∧ enrich_all [c4Abuse, c4Geo, c4Dns, c4Whois] c4Ind =
        [("geoip".toList, "maxmind".toList, 99, (168 : Int))] :=
  ⟨by decide, by rfl,
   (C4_enrich_all_error_isolation [c4Abuse, c4Geo, c4Dns, c4Whois] c4Ind).2
     c4Geo (List.mem_cons_of_mem c4Abuse (List.mem_cons_self c4Geo [c4Dns, c4Whois]))
     (by decide) 99 (by rfl),
   by rfl⟩

/-! ### Sightings (src/storage/mod.rs lines 270–298) -/

/-- A `sightings` row (src/models/mod.rs lines 158–165). -/
structure Sighting where
  id : Nat
  indicator_id : Nat
  source : Str
  context : Option Str
  observed_at : Int
  created_at : Int
deriving DecidableEq, Repr

/-- The storage state observable between SQL statements: the `indicators` and
`sightings` tables. -/
structure Store where
  indicators : List Indicator
  sightings : List Sighting
deriving DecidableEq, Repr

/-- The first statement of `add_sighting` (src/storage/mod.rs lines 276–289):
`INSERT INTO sightings ... VALUES (..., NOW(), NOW()) RETURNING *`, executed
and auto-committed on its own. -/
def insertSightingStmt (st : Store) (sid iid : Nat) (source : Str)
    (ctx : Option Str) (now : Int) : Store × Sighting :=
  let row : Sighting :=
    { id := sid
      indicator_id := iid
      source := source
      context := ctx
      observed_at := now
      created_at := now }
  ({ st with sightings := st.sightings ++ [row] }, row)

/-- The row-level effect of the `last_seen` update on one indicator row. -/
def bumpOne (iid : Nat) (now : Int) (i : Indicator) : Indicator :=
  if i.id = iid then { i with last_seen := now } else i

/-- The second statement of `add_sighting` (src/storage/mod.rs lines 292–295):
the separate `UPDATE indicators SET last_seen = NOW() WHERE id = $1`,
auto-committed on its own. -/
def bumpLastSeenStmt (st : Store) (iid : Nat) (now : Int) : Store :=
  { st with indicators := st.indicators.map (bumpOne iid now) }

/-- Model of `add_sighting` (src/storage/mod.rs lines 270–298): the two
statements run one after the other with no enclosing transaction, so the state
after the first statement alone is observable by concurrent readers (each
statement evaluates its own `NOW()`). -/
def add_sighting (st : Store) (sid iid : Nat) (source : Str) (ctx : Option Str)
    (now1 now2 : Int) : Store × Sighting :=
  let mid := insertSightingStmt st sid iid source ctx now1
  (bumpLastSeenStmt mid.1 iid now2, mid.2)

/-- The invariant the claim demands of every observable state: no sighting is
newer than its parent indicator's `last_seen`. -/
def sightingInv (st : Store) : Bool :=
  st.sightings.all fun s => st.indicators.all fun i =>
    !(decide (i.id = s.indicator_id)) || decide (s.observed_at ≤ i.last_seen)

/-- The indicator present before the C5 scenario. -/
def c5Ind : Indicator where
  id := 1
  ioc_type := .ip
  value := "8.8.8.8".toList
  severity := .low
  confidence := 50
  threat_score := 50
  tlp := .amber
  first_seen := 0
  last_seen := 0
  expiration := none
  tags := []
  source_ids := []
  created_at := 0
  updated_at := 0

/-- The store before the C5 scenario: one indicator, no sightings; the
invariant holds. -/
def c5Store : Store where
  indicators := [c5Ind]
  sightings := []

/-- Claim C5 (code bug): the two effects of `add_sighting` are not atomic — the
sighting INSERT and the `last_seen` UPDATE are two separate auto-committed
statements.  Starting from a store satisfying the invariant, the intermediate
state after the INSERT alone — observable by any concurrent reader, and final
if the update fails or the process stops — contains a sighting with
`observed_at = 5` while the parent indicator's `last_seen` is still `0`,
violating the invariant the claim asserts for every observable interleaving;
only the second statement restores it. -/
theorem C5_add_sighting_not_atomic :
    sightingInv c5Store = true
    ∧ add_sighting c5Store 50 1 ("manual".toList) none 5 6 =
        (bumpLastSeenStmt (insertSightingStmt c5Store 50 1 ("manual".toList) none 5).1 1 6,
         (insertSightingStmt c5Store 50 1 ("manual".toList) none 5).2)
    ∧ (insertSightingStmt c5Store 50 1 ("manual".toList) none 5).2.observed_at = 5
    ∧ sightingInv (insertSightingStmt c5Store 50 1 ("manual".toList) none 5).1 = false
    ∧ sightingInv (add_sighting c5Store 50 1 ("manual".toList) none 5 6).1 = true := by
  refine ⟨by decide, by rfl, by decide, by decide, by decide⟩

/-! ### Bulk import (src/api/mod.rs lines 119–159) -/

/-- Request type `BulkImportRequest` (src/models/mod.rs lines 192–197). -/
structure BulkImportRequest where
  indicators : List CreateIndicatorRequest
  source : Str
  tlp : Option Tlp
  tags : Option (List Str)
deriving DecidableEq, Repr

/-- Response type `BulkImportResponse` (src/models/mod.rs lines 201–207). -/
structure BulkImportResponse where
  total : Nat
  created : Nat
  updated : Nat
  failed : Nat
  errors : List Str
deriving DecidableEq, Repr

/-- The per-item default application of `bulk_import` (src/api/mod.rs lines
130–141): set the batch source when the item has none, the batch TLP when the
item has none, and extend the item's tags with the batch tags. -/
def applyBulkDefaults (breq : BulkImportRequest) (req : CreateIndicatorRequest) :
    CreateIndicatorRequest :=
  let req1 := if req.source = none then { req with source := some breq.source } else req
  let req2 := if req1.tlp = none then { req1 with tlp := breq.tlp } else req1
  match breq.tags with
  | some bulkTags => { req2 with tags := some (req2.tags.getD [] ++ bulkTags) }
  | none => req2

/-- The accumulation loop of `bulk_import` (src/api/mod.rs lines 129–150):
each item receives the batch defaults and is upserted with `source_id = None`;
an `Ok` increments `created`, an `Err` increments `failed` and appends
`"<value>: <error>"` to the error list; no failure stops the loop.  Returns
`(created, failed, errors, final table)`; fresh ids are drawn from `nid`
upward. -/
def bulkGo (breq : BulkImportRequest) (now : Int) :
    List CreateIndicatorRequest → List Indicator → Nat →
      Nat × Nat × List Str × List Indicator
  | [], db, _ => (0, 0, [], db)
  | req :: rest, db, nid =>
    match upsert_indicator db (applyBulkDefaults breq req) none now nid with
    | .ok (db', _) =>
      let r := bulkGo breq now rest db' (nid + 1)
      (r.1 + 1, r.2.1, r.2.2.1, r.2.2.2)
    | .error e =>
      let r := bulkGo breq now rest db (nid + 1)
      (r.1, r.2.1 + 1,
        ((applyBulkDefaults breq req).value ++ ": ".toList ++ e) :: r.2.2.1,
        r.2.2.2)

/-- Model of the `bulk_import` handler (src/api/mod.rs lines 119–159): run the
loop and always answer with a successful response (`updated` is never
incremented by the source). -/
def bulk_import (breq : BulkImportRequest) (db : List Indicator) (now : Int)
    (baseId : Nat) : BulkImportResponse × List Indicator :=
  let r := bulkGo breq now breq.indicators db baseId
  ({ total := breq.indicators.length
     created := r.1
     updated := 0
     failed := r.2.1
     errors := r.2.2.1 }, r.2.2.2)

theorem upsert_err_eq (db : List Indicator) (req : CreateIndicatorRequest)
    (sid : Option Nat) (now : Int) (nid : Nat) (h : resolveKey req = none) :
    upsert_indicator db req sid now nid = .error (detectErr req.value) := by
  unfold upsert_indicator
  simp only [h]

theorem upsert_ok_exists (db : List Indicator) (req : CreateIndicatorRequest)
    (sid : Option Nat) (now : Int) (nid : Nat) (t : IocType) (nv : Str)
    (h : resolveKey req = some (t, nv)) :
    ∃ p : List Indicator × Indicator, upsert_indicator db req sid now nid = .ok p := by
  unfold upsert_indicator
  simp only [h]
  cases findRow db t nv <;> exact ⟨_, rfl⟩

theorem bulkGo_spec (breq : BulkImportRequest) (now : Int) :
    ∀ (items : List CreateIndicatorRequest) (db : List Indicator) (nid : Nat),
      (bulkGo breq now items db nid).1 =
        (items.filter
          (fun r => (resolveKey (applyBulkDefaults breq r)).isSome)).length
      ∧ (bulkGo breq now items db nid).2.1 =
        (items.filter
          (fun r => (resolveKey (applyBulkDefaults breq r)).isNone)).length
      ∧ (bulkGo breq now items db nid).2.2.1 =
        (items.filter
          (fun r => (resolveKey (applyBulkDefaults breq r)).isNone)).map
          (fun r => (applyBulkDefaults breq r).value ++ ": ".toList ++
            detectErr (applyBulkDefaults breq r).value)
  | [], db, nid => ⟨rfl, rfl, rfl⟩
  | req :: rest, db, nid => by
    cases hres : resolveKey (applyBulkDefaults breq req) with
    | none =>
      have hup := upsert_err_eq db (applyBulkDefaults breq req) none now nid hres
      have hstep : bulkGo breq now (req :: rest) db nid =
          ((bulkGo breq now rest db (nid + 1)).1,
           (bulkGo breq now rest db (nid + 1)).2.1 + 1,
           ((applyBulkDefaults breq req).value ++ ": ".toList ++
             detectErr (applyBulkDefaults breq req).value) ::
               (bulkGo breq now rest db (nid + 1)).2.2.1,
           (bulkGo breq now rest db (nid + 1)).2.2.2) := by
        show (match upsert_indicator db (applyBulkDefaults breq req) none now nid with
          | .ok (db', _) =>
            let r := bulkGo breq now rest db' (nid + 1)
            (r.1 + 1, r.2.1, r.2.2.1, r.2.2.2)
          | .error e =>
            let r := bulkGo breq now rest db (nid + 1)
            (r.1, r.2.1 + 1,
              ((applyBulkDefaults breq req).value ++ ": ".toList ++ e) :: r.2.2.1,
              r.2.2.2)) = _
        rw [hup]
      obtain ⟨ih1, ih2, ih3⟩ := bulkGo_spec breq now rest db (nid + 1)
      rw [hstep]
      have hpred : (fun r => (resolveKey (applyBulkDefaults breq r)).isNone) req = true := by
        simp [hres]
      have hpred2 : ¬ ((fun r => (resolveKey (applyBulkDefaults breq r)).isSome) req = true) := by
        simp [hres]
      refine ⟨?_, ?_, ?_⟩
      · rw [List.filter_cons_of_neg (by simpa using hpred2)]
        exact ih1
      · rw [List.filter_cons_of_pos (by simpa using hpred)]
        simp [ih2]
      · rw [List.filter_cons_of_pos (by simpa using hpred), List.map_cons]
        rw [ih3]
    | some k =>
      obtain ⟨p, hup⟩ := upsert_ok_exists db (applyBulkDefaults breq req) none now nid
        k.1 k.2 (by rw [hres])
      have hstep : bulkGo breq now (req :: rest) db nid =
          ((bulkGo breq now rest p.1 (nid + 1)).1 + 1,
           (bulkGo breq now rest p.1 (nid + 1)).2.1,
           (bulkGo breq now rest p.1 (nid + 1)).2.2.1,
           (bulkGo breq now rest p.1 (nid + 1)).2.2.2) := by
        show (match upsert_indicator db (applyBulkDefaults breq req) none now nid with
          | .ok (db', _) =>
            let r := bulkGo breq now rest db' (nid + 1)
            (r.1 + 1, r.2.1, r.2.2.1, r.2.2.2)
          | .error e =>
            let r := bulkGo breq now rest db (nid + 1)
            (r.1, r.2.1 + 1,
              ((applyBulkDefaults breq req).value ++ ": ".toList ++ e) :: r.2.2.1,
              r.2.2.2)) = _
        rw [hup]
      obtain ⟨ih1, ih2, ih3⟩ := bulkGo_spec breq now rest p.1 (nid + 1)
      rw [hstep]
      have hpred : (fun r => (resolveKey (applyBulkDefaults breq r)).isSome) req = true := by
        simp [hres]
      have hpred2 : ¬ ((fun r => (resolveKey (applyBulkDefaults breq r)).isNone) req = true) := by
        simp [hres]
      refine ⟨?_, ?_, ?_⟩
      · rw [List.filter_cons_of_pos (by simpa using hpred)]
        simp [ih1]
      · rw [List.filter_cons_of_neg (by simpa using hpred2)]
        exact ih2
      · rw [List.filter_cons_of_neg (by simpa using hpred2)]
        exact ih3

theorem length_filter_isSome_add_isNone (breq : BulkImportRequest)
    (items : List CreateIndicatorRequest) :
    (items.filter (fun r => (resolveKey (applyBulkDefaults breq r)).isSome)).length
      + (items.filter (fun r => (resolveKey (applyBulkDefaults breq r)).isNone)).length
      = items.length := by
  induction items with
  | nil => rfl
  | cons req rest ih =>
    cases hres : resolveKey (applyBulkDefaults breq req) with
    | none =>
      rw [List.filter_cons_of_neg (by simp [hres]),
        List.filter_cons_of_pos (by simp [hres]), List.length_cons,
        List.length_cons]
      omega
    | some k =>
      rw [List.filter_cons_of_pos (by simp [hres]),
        List.filter_cons_of_neg (by simp [hres]), List.length_cons,
        List.length_cons]
      omega

/-- Claim C10: one item's failure never fails the batch: `bulk_import` always
returns a (successful) response whose `total` is the batch size, whose
`failed` equals exactly the number of failing items (those whose IOC type
cannot be resolved), whose `errors` are exactly the strings
`"<value>: <error>"` of those items in order, and whose `created` counts all
the other items — every non-failing item is processed and counted regardless
of failures elsewhere in the batch, and `created + failed = total`. -/
theorem C10_bulk_import_isolation (breq : BulkImportRequest)
    (db : List Indicator) (now : Int) (baseId : Nat) :
    (bulk_import breq db now baseId).1.total = breq.indicators.length
    ∧ (bulk_import breq db now baseId).1.updated = 0
    ∧ (bulk_import breq db now baseId).1.created =
        (breq.indicators.filter
          (fun r => (resolveKey (applyBulkDefaults breq r)).isSome)).length
    ∧ (bulk_import breq db now baseId).1.failed =
        (breq.indicators.filter
          (fun r => (resolveKey (applyBulkDefaults breq r)).isNone)).length
    ∧ (bulk_import breq db now baseId).1.errors =
        (breq.indicators.filter
          (fun r => (resolveKey (applyBulkDefaults breq r)).isNone)).map
          (fun r => (applyBulkDefaults breq r).value ++ ": ".toList ++
            detectErr (applyBulkDefaults breq r).value)
    ∧ (bulk_import breq db now baseId).1.created +
        (bulk_import breq db now baseId).1.failed =
        (bulk_import breq db now baseId).1.total := by
  obtain ⟨h1, h2, h3⟩ := bulkGo_spec breq now breq.indicators db baseId
  refine ⟨rfl, rfl, h1, h2, h3, ?_⟩
  show (bulkGo breq now breq.indicators db baseId).1 +
    (bulkGo breq now breq.indicators db baseId).2.1 = breq.indicators.length
  rw [h1, h2]
  exact length_filter_isSome_add_isNone breq breq.indicators

/-- Witness for C8 at a concrete domain value. -/
theorem C8_witness :
    normalize_ioc (normalize_ioc ("  EXAMPLE.com ".toList) IocType.domain)
        IocType.domain =
      normalize_ioc ("  EXAMPLE.com ".toList) IocType.domain :=
  C8_normalize_ioc_idempotent ("  EXAMPLE.com ".toList) IocType.domain

/-- An item whose IOC type resolves, for the C10 witness batch. -/
def c10Good : CreateIndicatorRequest where
  value := "8.8.8.8".toList
  ioc_type := none
  severity := none
  confidence := none
  tlp := none
  tags := none
  source := none
  expiration_days := none

/-- An item with an empty value, which fails detection, for the C10 witness
batch. -/
def c10Bad : CreateIndicatorRequest where
  value := []
  ioc_type := none
  severity := none
  confidence := none
  tlp := none
  tags := none
  source := none
  expiration_days := none

/-- The three-item batch of the C10 witness: good, bad, good. -/
def c10Batch : BulkImportRequest where
  indicators := [c10Good, c10Bad, c10Good]
  source := "feed".toList
  tlp := some .white
  tags := some ["w".toList]

/-- Witness for C10 at a concrete three-item batch whose second item fails:
the batch succeeds with `created = 2`, `failed = 1` and the single error
string for the empty value. -/
theorem C10_witness :
    (bulk_import c10Batch [] 100 1).1.total = 3
    ∧ (bulk_import c10Batch [] 100 1).1.created =
        ([c10Good, c10Bad, c10Good].filter
          (fun r => (resolveKey (applyBulkDefaults c10Batch r)).isSome)).length
    ∧ (bulk_import c10Batch [] 100 1).1.failed =
        ([c10Good, c10Bad, c10Good].filter
          (fun r => (resolveKey (applyBulkDefaults c10Batch r)).isNone)).length
    ∧ (bulk_import c10Batch [] 100 1).1.created +
        (bulk_import c10Batch [] 100 1).1.failed =
        (bulk_import c10Batch [] 100 1).1.total :=
  ⟨(C10_bulk_import_isolation c10Batch [] 100 1).1,
   (C10_bulk_import_isolation c10Batch [] 100 1).2.2.1,
   (C10_bulk_import_isolation c10Batch [] 100 1).2.2.2.1,
   (C10_bulk_import_isolation c10Batch [] 100 1).2.2.2.2.2⟩

end ThreatIntel
